import Mathlib

/-!
# Verification of bare-server-node against its specification

Shallow embedding of the TOMPHTTP bare server (tomphttp/bare-server-node).
JavaScript strings are modeled as `List Nat` of UTF-16 code units where
character-level arithmetic matters (src/encodeProtocol.ts), and as Lean
`String` elsewhere.  JavaScript objects (ordered own-property maps) and
Fetch `Headers` are modeled as association lists with the operations the
source uses.
-/

namespace Bare

/-! ## src/encodeProtocol.ts

`validChars` is the string
`"!#$%&'*+-.0123456789ABCDEFGHIJKLMNOPQRSTUVWXYZ^_` + backtick +
`abcdefghijklmnopqrstuvwxyz|~"`.  `validCharCode c` embeds
`validChars.includes(char)` as a predicate on the code unit `c`. -/
def validCharCode (c : Nat) : Bool :=
  c = 33 || (35 ≤ c && c ≤ 39) || c = 42 || c = 43 || c = 45 || c = 46 ||
  (48 ≤ c && c ≤ 57) || (65 ≤ c && c ≤ 90) || (94 ≤ c && c ≤ 96) ||
  (97 ≤ c && c ≤ 122) || c = 124 || c = 126

/-- `reserveChar` is `'%'`, code 37. -/
def reserveChar : Nat := 37

/-- `code.toString(16)`: lowercase hex digit expansion of a number, as the
list of digit code units (`Nat.toDigits 16` produces lowercase hex, `['0']`
for zero, exactly like `Number.prototype.toString(16)` on naturals). -/
def natHexDigits (n : Nat) : List Nat :=
  (Nat.toDigits 16 n).map Char.toNat

/-- `.padStart(2, '0')` on a digit string. -/
def padHex2 (l : List Nat) : List Nat :=
  if 2 ≤ l.length then l else List.replicate (2 - l.length) 48 ++ l

/-- `encodeProtocol` from src/encodeProtocol.ts, on code-unit lists. -/
def encodeProtocol : List Nat → List Nat
  | [] => []
  | c :: rest =>
    (if validCharCode c && c ≠ reserveChar then [c]
     else reserveChar :: padHex2 (natHexDigits c)) ++ encodeProtocol rest

/-- The numeric value of a hex digit code unit, as accepted by
`parseInt(·, 16)` (`0-9`, `a-f`, `A-F`). -/
def hexDigitVal (c : Nat) : Option Nat :=
  if 48 ≤ c ∧ c ≤ 57 then some (c - 48)
  else if 97 ≤ c ∧ c ≤ 102 then some (c - 87)
  else if 65 ≤ c ∧ c ≤ 70 then some (c - 55)
  else none

def parseHexAux : List Nat → Nat → Nat
  | [], acc => acc
  | c :: rest, acc =>
    match hexDigitVal c with
    | some v => parseHexAux rest (acc * 16 + v)
    | none => acc

/-- `parseInt(s, 16)` on the (at most two) sliced code units: the value of
the longest hex-digit prefix, `none` for `NaN` (no leading hex digit).
`encodeProtocol` only ever produces plain hex digits after `%`, so the
whitespace/sign/`0x` forms of `parseInt` never arise here. -/
def parseHex2 : List Nat → Option Nat
  | [] => none
  | c :: rest =>
    match hexDigitVal c with
    | some v => some (parseHexAux rest v)
    | none => none

/-- `decodeProtocol` from src/encodeProtocol.ts.  On `'%'` it decodes
`parseInt(protocol.slice(i + 1, i + 3), 16)` and advances by two extra
positions; `String.fromCharCode(NaN)` is the NUL character, hence
`(parseHex2 _).getD 0`. -/
def decodeProtocol : List Nat → List Nat
  | [] => []
  | c :: rest =>
    if c = reserveChar then
      match rest with
      | [] => [(parseHex2 []).getD 0]
      | [a] => [(parseHex2 [a]).getD 0]
      | a :: b :: t => (parseHex2 [a, b]).getD 0 :: decodeProtocol t
    else c :: decodeProtocol rest

/-! ## JavaScript strings, numbers and maps

Outside of `encodeProtocol` (where raw code-unit arithmetic is needed),
JavaScript strings are modeled as `List Char` so that the `slice`,
`startsWith`, `toLowerCase` and concatenation operations of the source map
to well-understood list operations. -/

/-- A JavaScript string. -/
abbrev JsStr := List Char

/-- Shorthand turning a Lean string literal into a `JsStr`. -/
def S (s : String) : JsStr := s.data

/-- `String.prototype.toLowerCase`.  Every string it is applied to in the
source is an ASCII header name, where `Char.toLower` agrees with the
JavaScript (full Unicode) definition. -/
def jsToLower (s : JsStr) : JsStr := s.map Char.toLower

/-- The whitespace characters skipped by `parseInt` (the forms relevant to
ASCII inputs). -/
def jsWhitespace (c : Char) : Bool :=
  c = ' ' || c = '\t' || c = '\n' || c = '\r' || c = '\x0b' || c = '\x0c'

def isDecDigit (c : Char) : Bool := '0' ≤ c && c ≤ '9'

def decDigitVal (c : Char) : Nat := c.toNat - 48

def isHexDigitJs (c : Char) : Bool :=
  ('0' ≤ c && c ≤ '9') || ('a' ≤ c && c ≤ 'f') || ('A' ≤ c && c ≤ 'F')

def hexDigitValJs (c : Char) : Nat :=
  if '0' ≤ c ∧ c ≤ '9' then c.toNat - 48
  else if 'a' ≤ c ∧ c ≤ 'f' then c.toNat - 87
  else c.toNat - 55

/-- Value of the longest prefix of digits (given digit test and value, and a
base); `none` when the prefix is empty (`parseInt` returns `NaN`). -/
def digitRunVal (isDig : Char → Bool) (val : Char → Nat) (base : Nat)
    (l : List Char) : Option Nat :=
  match l.takeWhile isDig with
  | [] => none
  | ds => some (ds.foldl (fun a c => a * base + val c) 0)

/-- Magnitude part of `parseInt` after sign handling: a `0x`/`0X` prefix
selects base 16, otherwise base 10. -/
def jsParseIntSigned (sign : Int) (body : List Char) : Option Int :=
  (match body with
    | '0' :: x :: rest =>
      if x = 'x' ∨ x = 'X' then digitRunVal isHexDigitJs hexDigitValJs 16 rest
      else digitRunVal isDecDigit decDigitVal 10 body
    | _ => digitRunVal isDecDigit decDigitVal 10 body).map
    (fun n => sign * (n : Int))

/-- `parseInt(s)` (radix unspecified): skip whitespace, optional sign, a
`0x`/`0X` prefix selects base 16, otherwise base 10; `none` is `NaN`. -/
def jsParseInt (s : JsStr) : Option Int :=
  match s.dropWhile jsWhitespace with
  | [] => jsParseIntSigned 1 []
  | c :: rest =>
    if c = '-' then jsParseIntSigned (-1) rest
    else if c = '+' then jsParseIntSigned 1 rest
    else jsParseIntSigned 1 (c :: rest)

/-- Decimal digit expansion (most significant first) with explicit fuel, so
that it reduces in the kernel; `natDec n` below always supplies enough. -/
def decDigitsAux : Nat → Nat → List Char
  | 0, _ => []
  | fuel + 1, n =>
    if n < 10 then [Char.ofNat (48 + n)]
    else decDigitsAux fuel (n / 10) ++ [Char.ofNat (48 + n % 10)]

/-- The string interpolation `${id}` of a non-negative integer. -/
def natDec (n : Nat) : JsStr := decDigitsAux (n + 1) n

/-! ### Fetch `Headers`

Modeled as an association list of `(lowercased name, value)` pairs without
duplicate names (the source only ever builds `Headers` through `set` and
`delete`, which maintain this).  `Headers` iteration enumerates entries
sorted by name; the only place the source iterates a `Headers`
(`joinHeaders`) produces a result that does not depend on the enumeration
order — fragments are written into an array at their parsed numeric index —
so the model iterates the entry list directly. -/

abbrev HeadersM := List (JsStr × JsStr)

def hGet (h : HeadersM) (name : JsStr) : Option JsStr :=
  (h.find? (fun p => p.1 = jsToLower name)).map Prod.snd

def hHas (h : HeadersM) (name : JsStr) : Bool :=
  h.any (fun p => p.1 = jsToLower name)

def hSet (h : HeadersM) (name value : JsStr) : HeadersM :=
  let n := jsToLower name
  if h.any (fun p => p.1 = n) then
    h.map (fun p => if p.1 = n then (n, value) else p)
  else h ++ [(n, value)]

def hDelete (h : HeadersM) (name : JsStr) : HeadersM :=
  let n := jsToLower name
  h.filter (fun p => ¬p.1 = n)

/-- Well-formedness maintained by the `Headers` methods: names are stored
lowercased and are pairwise distinct. -/
def hWF (h : HeadersM) : Prop :=
  (h.map Prod.fst).Nodup ∧ ∀ p ∈ h, jsToLower p.1 = p.1

/-! ## src/BareServer.ts — the error model -/

/-- `BareErrorBody` from src/BareServer.ts. -/
structure BareErrorBody where
  code : JsStr
  id : JsStr
  message : Option JsStr := none
  stack : Option JsStr := none
deriving DecidableEq, Repr

/-- `BareError` from src/BareServer.ts: an `Error` subclass carrying an HTTP
status and a JSON body.  (It sets no `name`, so `error.name` is the
inherited `"Error"`.) -/
structure BareError where
  status : Nat
  body : BareErrorBody
deriving DecidableEq, Repr

/-! ## src/splitHeaderUtil.ts -/

def MAX_HEADER_VALUE : Nat := 3072

/-- The chunks `value.slice(i, i + MAX_HEADER_VALUE)` for
`i = 0, MAX, 2*MAX, … < value.length`, with explicit fuel (each step
consumes at least one character, so seeding the fuel with the length is
always enough and the `fuel = 0` arm is unreachable). -/
def chunkListCore : Nat → List Char → List (List Char)
  | _, [] => []
  | 0, l => [l]
  | fuel + 1, l =>
    l.take MAX_HEADER_VALUE :: chunkListCore fuel (l.drop MAX_HEADER_VALUE)

def chunkList (l : List Char) : List (List Char) :=
  chunkListCore l.length l

/-- `splitHeaders` from src/splitHeaderUtil.ts: when `x-bare-headers`
exceeds `MAX_HEADER_VALUE` characters, delete it and emit
`x-bare-headers-N: ;<slice>` fragments. -/
def splitHeaders (h : HeadersM) : HeadersM :=
  if hHas h (S "x-bare-headers") then
    match hGet h (S "x-bare-headers") with
    | some value =>
      if MAX_HEADER_VALUE < value.length then
        ((chunkList value).enum).foldl
          (fun acc p => hSet acc (S "x-bare-headers-" ++ natDec p.1) (';' :: p.2))
          (hDelete h (S "x-bare-headers"))
      else h
    | none => h
  else h

/-- The loop body of `joinHeaders`: walk the entries; every header whose
name starts with `x-bare-headers` must have a `;`-prefixed value (else
`BareError(400, INVALID_BARE_HEADER)`); its value (minus the `;`) is
assigned at index `parseInt(header.slice("x-bare-headers".length + 1))`
of the `join` array.  A `NaN` or negative index is an ordinary object
property assignment on the array, invisible to `join('')`, so such
fragments are dropped. -/
def collectFrags : HeadersM → Except BareError (List (Nat × JsStr))
  | [] => .ok []
  | (name, value) :: rest =>
    if (S "x-bare-headers").isPrefixOf name then
      if (S ";").isPrefixOf value then
        match collectFrags rest with
        | .error e => .error e
        | .ok tail =>
          .ok (match jsParseInt (name.drop 15) with
            | some i => if 0 ≤ i then (i.toNat, value.drop 1) :: tail else tail
            | none => tail)
      else
        .error ⟨400, ⟨S "INVALID_BARE_HEADER", S "request.headers." ++ name,
          some (S "Value didn\x27t begin with semi-colon."), none⟩⟩
    else collectFrags rest

/-- The last value assigned at index `i` of the `join` array. -/
def arrayJoinLookup (l : List (Nat × JsStr)) (i : Nat) : Option JsStr :=
  (l.filterMap (fun p => if p.1 = i then some p.2 else none)).getLast?

/-- `join.join('')` on a JavaScript array built by index assignments:
length is one past the largest assigned index, holes render as empty
strings. -/
def arrayJoin (l : List (Nat × JsStr)) : JsStr :=
  match (l.map Prod.fst).max? with
  | none => []
  | some m => ((List.range (m + 1)).map (fun i => (arrayJoinLookup l i).getD [])).flatten

/-- `joinHeaders` from src/splitHeaderUtil.ts. -/
def joinHeaders (h : HeadersM) : Except BareError HeadersM :=
  if hHas h (S "x-bare-headers-0") then
    match collectFrags h with
    | .error e => .error e
    | .ok asgn =>
      .ok (hSet (h.filter (fun p => ¬(S "x-bare-headers").isPrefixOf p.1))
        (S "x-bare-headers") (arrayJoin asgn))
  else .ok h

/-- A headers map with an oversized `x-bare-headers` and an unrelated
pre-existing `x-bare-headers-0` entry. -/
def collidingHeaders : HeadersM :=
  [(S "x-bare-headers", List.replicate 3073 'a'), (S "x-bare-headers-0", S ";x")]

/-- A headers map whose only entry is an oversized `x-bare-headers`. -/
def oversizedHeaders : HeadersM :=
  [(S "x-bare-headers", List.replicate 3073 'a')]

/-! ## src/requestUtil.js — raw header utilities

`BareHeaders` values are `string | string[]`; JavaScript objects are
ordered own-property maps: `k in o` tests presence, `delete o[k]` removes,
and `o[k] = v` updates in place when `k` exists, otherwise appends. -/

inductive HVal where
  | one (s : JsStr)
  | many (l : List JsStr)
deriving DecidableEq, Repr

/-- An ordered JavaScript object used as a `BareHeaders` map. -/
abbrev ObjMap := List (JsStr × HVal)

def objHas (o : ObjMap) (k : JsStr) : Bool :=
  o.any (fun p => p.1 = k)

def objGet (o : ObjMap) (k : JsStr) : Option HVal :=
  (o.find? (fun p => p.1 = k)).map Prod.snd

def objDelete (o : ObjMap) (k : JsStr) : ObjMap :=
  o.filter (fun p => ¬p.1 = k)

def objSet (o : ObjMap) (k : JsStr) (v : HVal) : ObjMap :=
  if o.any (fun p => p.1 = k) then
    o.map (fun p => if p.1 = k then (k, v) else p)
  else o ++ [(k, v)]

/-- `rawHeaderNames` from src/requestUtil.js: walk the flat
`[name, value, name, value, …]` sequence two at a time, pushing each name
not already in the result (`result.includes(raw[i])`). -/
def rawHeaderNamesAux (acc : List JsStr) : List JsStr → List JsStr
  | [] => acc
  | [n] => if acc.contains n then acc else acc ++ [n]
  | n :: _ :: rest =>
    rawHeaderNamesAux (if acc.contains n then acc else acc ++ [n]) rest

def rawHeaderNames (raw : List JsStr) : List JsStr :=
  rawHeaderNamesAux [] raw

/-- `mapHeadersFromArray` from src/requestUtil.js.  The
`header.toLowerCase() in to` test is realized by matching on `objGet`
(`objHas o k = (objGet o k).isSome`); on a hit the lowercased key is
deleted and the original-case key is assigned (appended, since the
lowercased key was just removed). -/
def mapHeadersFromArray : List JsStr → ObjMap → ObjMap
  | [], tgt => tgt
  | header :: rest, tgt =>
    match objGet tgt (jsToLower header) with
    | some value =>
      mapHeadersFromArray rest (objSet (objDelete tgt (jsToLower header)) header value)
    | none => mapHeadersFromArray rest tgt

/-- `flattenHeader` from src/headerUtil.ts: arrays are joined with
`", "`. -/
def flattenHeader : HVal → JsStr
  | .one s => s
  | .many l => (l.intersperse (S ", ")).flatten

/-- Modelled from the spec: "the ordered set of distinct names (first
occurrence wins)" — the reference function `rawHeaderNames` is compared
against. -/
def distinctFirstOccur (l : List JsStr) : List JsStr :=
  l.foldl (fun acc n => if acc.contains n then acc else acc ++ [n]) []

/-- Modelled from the spec: the names of a raw header sequence are the
elements at even indices. -/
def evenNames : List JsStr → List JsStr
  | [] => []
  | [n] => [n]
  | n :: _ :: rest => n :: evenNames rest

/-- A raw header sequence containing two case-variants of the same header. -/
def caseCollidingRaw : List JsStr := [S "X-A", S "1", S "x-a", S "2"]

/-- The lowercased header map of `caseCollidingRaw` (node combines the
duplicate values with `", "`). -/
def caseCollidingMap : ObjMap := [(S "x-a", HVal.one (S "1, 2"))]

/-- Concrete raw sequence and lowercased map for the C9 witness. -/
def wRaw : List JsStr := [S "X-Foo", S "Bar", S "Date", S "now"]

def wMap : ObjMap := [(S "x-foo", HVal.one (S "Bar")), (S "date", HVal.one (S "now"))]

/-! ## The error funnel of src/BareServer.ts `routeRequest`

A value thrown by a route handler, as `routeRequest`'s catch block can
distinguish it.  `BareError` extends `Error` without setting `name` or the
`statusCode`/`expose` fields that `createHttpError.isHttpError` duck-types
on, so a thrown `BareError` satisfies `error instanceof Error` but not
`isHttpError(error)`. -/
inductive Thrown where
  /-- an instance of `BareError` (its `name` is the inherited `"Error"`) -/
  | bare (e : BareError)
  /-- an error for which `createHttpError.isHttpError` is true -/
  | httpErr (statusCode : Nat) (name message : JsStr)
  /-- any other `Error` instance (`TypeError`, `RangeError`, …) -/
  | err (name message : JsStr)
  /-- a thrown non-`Error` value -/
  | nonErr (message : JsStr)
deriving DecidableEq, Repr

/-- `createHttpError.isHttpError`: true for http-errors instances; false
for `BareError` (no `statusCode`/`expose` fields) and plain errors. -/
def isHttpError : Thrown → Bool
  | .httpErr _ _ _ => true
  | _ => false

/-- `error instanceof Error`. -/
def instanceofError : Thrown → Bool
  | .nonErr _ => false
  | _ => true

/-- `error.name` as read by the catch block (`BareError` never assigns
`name`, so it reports `"Error"`). -/
def thrownName : Thrown → JsStr
  | .bare _ => S "Error"
  | .httpErr _ n _ => n
  | .err n _ => n
  | .nonErr _ => []

def thrownMessage : Thrown → JsStr
  | .bare e => (e.body.message).getD e.body.code
  | .httpErr _ _ m => m
  | .err _ m => m
  | .nonErr m => m

/-- The JSON error response produced by `routeRequest`'s catch block
(src/BareServer.ts lines 239–263): http-errors keep their `statusCode`,
every other thrown value — including `BareError` — becomes a 500 with code
`UNKNOWN`. -/
def routeRequestCatch (error : Thrown) : Nat × BareErrorBody :=
  if isHttpError error then
    match error with
    | .httpErr statusCode name message =>
      (statusCode, ⟨S "UNKNOWN", S "error." ++ name, some message, none⟩)
    | _ => (500, ⟨S "UNKNOWN", [], none, none⟩)
  else if instanceofError error then
    (500, ⟨S "UNKNOWN", S "error." ++ thrownName error, some (thrownMessage error), none⟩)
  else
    (500, ⟨S "UNKNOWN", S "error.Exception", some (thrownMessage error), none⟩)

/-! ## Version handlers: shared request model and header parsing

The inbound exchange is wrapped in a Fetch `Request` by `routeRequest`,
so handlers observe lowercased header names.  `cache` is the value of
`new URL(request.url).searchParams.has('cache')`. -/

structure BareRequestM where
  headers : HeadersM
  cache : Bool

/-- The enumerable-properties view of a `JSON.parse` result value:
a string, an array, or anything else (object/number/boolean/null), which
the header loop rejects. -/
inductive JsVal where
  | str (s : JsStr)
  | arr (elems : List JsVal)
  | other

/-- `JSON.parse` for the `x-bare-headers` object: either a `SyntaxError`
or the ordered own enumerable properties of the parsed value.  Modeled as
an opaque pure function (a JavaScript builtin); theorems hold for every
such function. -/
abbrev JsonObjParser := JsStr → Except Unit (List (JsStr × JsVal))

/-- `JSON.parse` for the v1 `x-bare-forward-headers` array, combined with
the `for … of` iteration: a `SyntaxError`/`TypeError`, or the element
list. -/
abbrev JsonArrParser := JsStr → Except Unit (List JsVal)

/-- The split `header.split(/,\s*/g)` used by v2/v3 for the
`x-bare-pass-status`/`x-bare-pass-headers`/`x-bare-forward-headers`
values; modeled as an opaque pure function. -/
abbrev CommaSplit := JsStr → List JsStr

/-- A parsed WHATWG `URL`. -/
structure URLRec where
  protocol : JsStr
  hostname : JsStr
  port : JsStr
  pathname : JsStr
  search : JsStr
deriving DecidableEq, Repr

/-- The `new URL(string)` constructor: a `TypeError` or the parsed URL;
modeled as an opaque pure function. -/
abbrev URLParser := JsStr → Except Unit URLRec

/-- `BareRemote`: the remote tuple as read from the `x-bare-*` headers
(every field still a string, exactly as stored by the readHeaders loop). -/
structure BareRemote where
  host : JsStr
  port : JsStr
  protocol : JsStr
  path : JsStr
deriving DecidableEq, Repr

def validProtocols : List JsStr := [S "http:", S "https:", S "ws:", S "wss:"]

def forbiddenSendHeaders : List JsStr :=
  [S "connection", S "content-length", S "transfer-encoding"]

/-- v1's forbidden forward list (src/V1.ts): note it lacks `host`. -/
def forbiddenForwardHeadersV1 : List JsStr :=
  [S "connection", S "transfer-encoding", S "origin", S "referer"]

/-- v2/v3's forbidden forward list (part_013 / src/V3.ts): note neither
list contains `content-length`. -/
def forbiddenForwardHeaders : List JsStr :=
  [S "connection", S "transfer-encoding", S "host", S "origin", S "referer"]

def forbiddenPassHeaders : List JsStr :=
  [S "vary", S "connection", S "transfer-encoding",
   S "access-control-allow-headers", S "access-control-allow-methods",
   S "access-control-expose-headers", S "access-control-max-age",
   S "access-control-request-headers", S "access-control-request-method"]

def defaultForwardHeadersV2 : List JsStr :=
  [S "accept-encoding", S "accept-language", S "sec-websocket-extensions",
   S "sec-websocket-key", S "sec-websocket-version"]

def defaultForwardHeadersV3 : List JsStr :=
  [S "accept-encoding", S "accept-language"]

def defaultPassHeaders : List JsStr :=
  [S "content-encoding", S "content-length", S "last-modified"]

def defaultCacheForwardHeaders : List JsStr :=
  [S "if-modified-since", S "if-none-match", S "cache-control"]

def defaultCachePassHeaders : List JsStr := [S "cache-control", S "etag"]

def cacheNotModified : Nat := 304

def missingHeaderError (h : JsStr) : BareError :=
  ⟨400, ⟨S "MISSING_BARE_HEADER", S "request.headers." ++ h,
    some (S "Header was not specified."), none⟩⟩

def invalidIntegerError (h : JsStr) : BareError :=
  ⟨400, ⟨S "INVALID_BARE_HEADER", S "request.headers." ++ h,
    some (S "Header was not a valid integer."), none⟩⟩

def invalidProtocolError (h : JsStr) : BareError :=
  ⟨400, ⟨S "INVALID_BARE_HEADER", S "request.headers." ++ h,
    some (S "Header was invalid"), none⟩⟩

/-- The interpolated `(error.message)` detail is dropped from the model. -/
def invalidJsonError (h : JsStr) : BareError :=
  ⟨400, ⟨S "INVALID_BARE_HEADER", S "request.headers." ++ h,
    some (S "Header contained invalid JSON."), none⟩⟩

def notStringError (header : JsStr) : BareError :=
  ⟨400, ⟨S "INVALID_BARE_HEADER", S "bare.headers." ++ header,
    some (S "Header was not a String."), none⟩⟩

def nonNumberPassStatusError : BareError :=
  ⟨400, ⟨S "INVALID_BARE_HEADER", S "request.headers.x-bare-pass-status",
    some (S "Array contained non-number value."), none⟩⟩

/-- Note the source reports `x-bare-forward-headers` as the id for
forbidden *pass* headers too. -/
def forbiddenPassError : BareError :=
  ⟨400, ⟨S "FORBIDDEN_BARE_HEADER", S "request.headers.x-bare-forward-headers",
    some (S "A forbidden header was passed."), none⟩⟩

def forbiddenForwardError : BareError :=
  ⟨400, ⟨S "FORBIDDEN_BARE_HEADER", S "request.headers.x-bare-forward-headers",
    some (S "A forbidden header was forwarded."), none⟩⟩

/-- The `x-bare-{host,port,protocol,path}` loop shared by v1
(src/V1.ts:57-90) and v2 (part_013:120-153): a missing header is
`MISSING_BARE_HEADER`; the port must satisfy `!isNaN(parseInt(value))`;
the protocol must be in `validProtocols`. -/
def readRemote (headers : HeadersM) : Except Thrown BareRemote :=
  match hGet headers (S "x-bare-host") with
  | none => .error (.bare (missingHeaderError (S "x-bare-host")))
  | some host =>
    match hGet headers (S "x-bare-port") with
    | none => .error (.bare (missingHeaderError (S "x-bare-port")))
    | some port =>
      if (jsParseInt port).isNone then
        .error (.bare (invalidIntegerError (S "x-bare-port")))
      else
        match hGet headers (S "x-bare-protocol") with
        | none => .error (.bare (missingHeaderError (S "x-bare-protocol")))
        | some protocol =>
          if validProtocols.contains protocol then
            match hGet headers (S "x-bare-path") with
            | none => .error (.bare (missingHeaderError (S "x-bare-path")))
            | some path => .ok ⟨host, port, protocol, path⟩
          else .error (.bare (invalidProtocolError (S "x-bare-protocol")))

/-- String check for an array-valued `x-bare-headers` entry: the first
non-string element throws. -/
def strArray (header : JsStr) : List JsVal → Except Thrown (List JsStr)
  | [] => .ok []
  | .str s :: rest => (strArray header rest).map (s :: ·)
  | _ :: _ => .error (.bare (notStringError header))

/-- The `x-bare-headers` object loop shared verbatim by v1, v2 and v3:
skip names whose lowercase is in `forbiddenSendHeaders`; accept strings
and arrays of strings; reject everything else. -/
def loadSendHeaders (acc : ObjMap) : List (JsStr × JsVal) → Except Thrown ObjMap
  | [] => .ok acc
  | (header, value) :: rest =>
    if forbiddenSendHeaders.contains (jsToLower header) then
      loadSendHeaders acc rest
    else
      match value with
      | .str s => loadSendHeaders (objSet acc header (HVal.one s)) rest
      | .arr elems => do
        let strs ← strArray header elems
        loadSendHeaders (objSet acc header (HVal.many strs)) rest
      | .other => .error (.bare (notStringError header))

/-- `loadForwardedHeaders` (v1's null test and v2/v3's `has` test agree):
copy each present inbound header into the outbound map. -/
def loadForwardedHeaders (forward : List JsStr) (target : ObjMap)
    (reqHeaders : HeadersM) : ObjMap :=
  forward.foldl
    (fun acc h =>
      match hGet reqHeaders h with
      | some v => objSet acc h (HVal.one v)
      | none => acc)
    target

/-- The v1 forward-header name pass: lowercase each element (a non-string
element makes `toLowerCase` throw, which v1's catch turns into
`INVALID_BARE_HEADER`), silently skipping forbidden names. -/
def forwardNamesV1 : List JsVal → Except Unit (List JsStr)
  | [] => .ok []
  | .str s :: rest =>
    let lower := jsToLower s
    if forbiddenForwardHeadersV1.contains lower then forwardNamesV1 rest
    else (forwardNamesV1 rest).map (lower :: ·)
  | _ :: _ => .error ()

/-- `remoteToURL` (src remoteUtil): the URL constructor argument
`${remote.protocol}${remote.host}:${remote.port}${remote.path}`. -/
def remoteToURLString (r : BareRemote) : JsStr :=
  r.protocol ++ r.host ++ [':'] ++ r.port ++ r.path

/-- `resolvePort` (src remoteUtil): `Number(url.port)` for an explicit
port (a WHATWG URL port is a plain digit string, so it agrees with
`parseInt`), else the scheme default. -/
def resolvePort (u : URLRec) : Nat :=
  if u.port ≠ [] then ((jsParseInt u.port).getD 0).toNat
  else if u.protocol = S "ws:" ∨ u.protocol = S "http:" then 80
  else if u.protocol = S "wss:" ∨ u.protocol = S "https:" then 443
  else 0

/-- `urlToRemote` (src remoteUtil); the numeric port is carried as its
decimal string, which is how it is next used (template interpolation). -/
def urlToRemote (u : URLRec) : BareRemote :=
  ⟨u.hostname, natDec (resolvePort u), u.protocol, u.pathname ++ u.search⟩

/-- `BareHeaderData` of src/V1.ts. -/
structure V1HeaderData where
  remote : URLRec
  headers : ObjMap

/-- `readHeaders` of src/V1.ts (the whole function, lines 52–180),
parameterized by the `JSON.parse` and `new URL` builtins. -/
def readHeadersV1 (req : BareRequestM) (parseHdrs : JsonObjParser)
    (parseFwd : JsonArrParser) (parseURL : URLParser) :
    Except Thrown V1HeaderData :=
  match readRemote req.headers with
  | .error e => .error e
  | .ok remote =>
    match hGet req.headers (S "x-bare-headers") with
    | none => .error (.bare (missingHeaderError (S "x-bare-headers")))
    | some xBareHeaders =>
      match parseHdrs xBareHeaders with
      | .error _ => .error (.bare (invalidJsonError (S "x-bare-headers")))
      | .ok parsed =>
        match loadSendHeaders [] parsed with
        | .error e => .error e
        | .ok headers0 =>
          match hGet req.headers (S "x-bare-forward-headers") with
          | none => .error (.bare (missingHeaderError (S "x-bare-forward-headers")))
          | some xFwd =>
            match parseFwd xFwd with
            | .error _ => .error (.bare (invalidJsonError (S "x-bare-forward-headers")))
            | .ok vals =>
              match forwardNamesV1 vals with
              | .error _ =>
                .error (.bare (invalidJsonError (S "x-bare-forward-headers")))
              | .ok fwdNames =>
                match parseURL (remoteToURLString remote) with
                | .error _ => .error (.err (S "TypeError") (S "Invalid URL"))
                | .ok u => .ok ⟨u, loadForwardedHeaders fwdNames headers0 req.headers⟩

/-- The `x-bare-pass-status` token loop of v2/v3. -/
def readPassStatus (acc : List Int) : List JsStr → Except Thrown (List Int)
  | [] => .ok acc
  | t :: rest =>
    match jsParseInt t with
    | none => .error (.bare nonNumberPassStatusError)
    | some n => readPassStatus (acc ++ [n]) rest

/-- The `x-bare-pass-headers` token loop of v2/v3. -/
def readPassHeaders (acc : List JsStr) : List JsStr → Except Thrown (List JsStr)
  | [] => .ok acc
  | t :: rest =>
    let lower := jsToLower t
    if forbiddenPassHeaders.contains lower then .error (.bare forbiddenPassError)
    else readPassHeaders (acc ++ [lower]) rest

/-- The `x-bare-forward-headers` token loop of v2/v3 (unlike v1, a
forbidden name throws). -/
def readForwardHeaders (acc : List JsStr) : List JsStr → Except Thrown (List JsStr)
  | [] => .ok acc
  | t :: rest =>
    let lower := jsToLower t
    if forbiddenForwardHeaders.contains lower then .error (.bare forbiddenForwardError)
    else readForwardHeaders (acc ++ [lower]) rest

/-- `BareHeaderData` of part_013 (v2) and src/V3.ts. -/
structure BareHeaderData where
  remote : URLRec
  sendHeaders : ObjMap
  passHeaders : List JsStr
  passStatus : List Int
  forwardHeaders : List JsStr

/-- V2/V3 `readHeaders`: the `x-bare-pass-status` block runs only when the
header is present (the optional-header test `headers.has(…)` is realized by
matching on `hGet`); otherwise the defaults stand. -/
def readPassStatusOpt (passStatus0 : List Int) (splitCW : CommaSplit) :
    Option JsStr → Except Thrown (List Int)
  | some v => readPassStatus passStatus0 (splitCW v)
  | none => .ok passStatus0

/-- V2/V3 `readHeaders`: the `x-bare-pass-headers` block. -/
def readPassHeadersOpt (passHeaders0 : List JsStr) (splitCW : CommaSplit) :
    Option JsStr → Except Thrown (List JsStr)
  | some v => readPassHeaders passHeaders0 (splitCW v)
  | none => .ok passHeaders0

/-- V2/V3 `readHeaders`: the `x-bare-forward-headers` block. -/
def readForwardHeadersOpt (forwardHeaders0 : List JsStr) (splitCW : CommaSplit) :
    Option JsStr → Except Thrown (List JsStr)
  | some v => readForwardHeaders forwardHeaders0 (splitCW v)
  | none => .ok forwardHeaders0

def readHeadersCommonTail (headers : HeadersM) (parseHdrs : JsonObjParser)
    (splitCW : CommaSplit) (passHeaders0 : List JsStr) (passStatus0 : List Int)
    (forwardHeaders0 : List JsStr) :
    Except Thrown (ObjMap × List JsStr × List Int × List JsStr) :=
  match hGet headers (S "x-bare-headers") with
  | none => .error (.bare (missingHeaderError (S "x-bare-headers")))
  | some xBareHeaders =>
    match parseHdrs xBareHeaders with
    | .error _ => .error (.bare (invalidJsonError (S "x-bare-headers")))
    | .ok parsed =>
      match loadSendHeaders [] parsed with
      | .error e => .error e
      | .ok sendHeaders =>
        match readPassStatusOpt passStatus0 splitCW
          (hGet headers (S "x-bare-pass-status")) with
        | .error e => .error e
        | .ok passStatus =>
          match readPassHeadersOpt passHeaders0 splitCW
            (hGet headers (S "x-bare-pass-headers")) with
          | .error e => .error e
          | .ok passHeaders =>
            match readForwardHeadersOpt forwardHeaders0 splitCW
              (hGet headers (S "x-bare-forward-headers")) with
            | .error e => .error e
            | .ok forwardHeaders =>
              .ok (sendHeaders, passHeaders, passStatus, forwardHeaders)

/-- `readHeaders` of part_013 (v2), lines 101–272. -/
def readHeadersV2 (req : BareRequestM) (parseHdrs : JsonObjParser)
    (splitCW : CommaSplit) (parseURL : URLParser) :
    Except Thrown BareHeaderData :=
  match joinHeaders req.headers with
  | .error e => .error (.bare e)
  | .ok headers =>
    match readRemote headers with
    | .error e => .error e
    | .ok remote =>
      match readHeadersCommonTail headers parseHdrs splitCW
        (defaultPassHeaders ++ (if req.cache then defaultCachePassHeaders else []))
        (if req.cache then [(cacheNotModified : Int)] else [])
        (defaultForwardHeadersV2 ++
          (if req.cache then defaultCacheForwardHeaders else [])) with
      | .error e => .error e
      | .ok (sendHeaders, passHeaders, passStatus, forwardHeaders) =>
        match parseURL (remoteToURLString remote) with
        | .error _ => .error (.err (S "TypeError") (S "Invalid URL"))
        | .ok u => .ok ⟨u, sendHeaders, passHeaders, passStatus, forwardHeaders⟩

/-- `readHeaders` of src/V3.ts, lines 90–236. -/
def readHeadersV3 (req : BareRequestM) (parseHdrs : JsonObjParser)
    (splitCW : CommaSplit) (parseURL : URLParser) :
    Except Thrown BareHeaderData :=
  match joinHeaders req.headers with
  | .error e => .error (.bare e)
  | .ok headers =>
    match hGet headers (S "x-bare-url") with
    | none => .error (.bare (missingHeaderError (S "x-bare-url")))
    | some xBareURL =>
      match parseURL xBareURL with
      | .error _ => .error (.err (S "TypeError") (S "Invalid URL"))
      | .ok parsedURL =>
        match readHeadersCommonTail headers parseHdrs splitCW
          (defaultPassHeaders ++
            (if req.cache then defaultCachePassHeaders else []))
          (if req.cache then [(cacheNotModified : Int)] else [])
          (defaultForwardHeadersV3 ++
            (if req.cache then defaultCacheForwardHeaders else [])) with
        | .error e => .error e
        | .ok (sendHeaders, passHeaders, passStatus, forwardHeaders) =>
          match parseURL (remoteToURLString (urlToRemote parsedURL)) with
          | .error _ => .error (.err (S "TypeError") (S "Invalid URL"))
          | .ok u => .ok ⟨u, sendHeaders, passHeaders, passStatus, forwardHeaders⟩

/-- The sendHeaders actually passed to `bareFetch` by the v2 tunnel
request handler: `readHeaders` followed by `loadForwardedHeaders`. -/
def tunnelSendHeadersV2 (req : BareRequestM) (parseHdrs : JsonObjParser)
    (splitCW : CommaSplit) (parseURL : URLParser) : Except Thrown ObjMap :=
  (readHeadersV2 req parseHdrs splitCW parseURL).map
    (fun d => loadForwardedHeaders d.forwardHeaders d.sendHeaders req.headers)

/-- The sendHeaders actually passed to `bareFetch` by the v3 tunnel
request handler. -/
def tunnelSendHeadersV3 (req : BareRequestM) (parseHdrs : JsonObjParser)
    (splitCW : CommaSplit) (parseURL : URLParser) : Except Thrown ObjMap :=
  (readHeadersV3 req parseHdrs splitCW parseURL).map
    (fun d => loadForwardedHeaders d.forwardHeaders d.sendHeaders req.headers)

/-- Headers of a v1/v2 request whose `x-bare-port` is `"0"`. -/
def portZeroHeaders : HeadersM :=
  [(S "x-bare-host", S "example.com"), (S "x-bare-port", S "0"),
   (S "x-bare-protocol", S "http:"), (S "x-bare-path", S "/")]

/-- Headers of a v1/v2 request whose `x-bare-port` is `"443"`. -/
def portOkHeaders : HeadersM :=
  [(S "x-bare-host", S "example.com"), (S "x-bare-port", S "443"),
   (S "x-bare-protocol", S "https:"), (S "x-bare-path", S "/")]

/-- Headers of a v1/v2 request whose `x-bare-port` is `"abc"`. -/
def portBadHeaders : HeadersM :=
  [(S "x-bare-host", S "example.com"), (S "x-bare-port", S "abc"),
   (S "x-bare-protocol", S "http:"), (S "x-bare-path", S "/")]

/-- A concrete v1 request used to instantiate the send-header invariant:
one benign header in `x-bare-headers`, an empty forward list. -/
def c2ReqW : BareRequestM :=
  ⟨[(S "x-bare-host", S "example.com"), (S "x-bare-port", S "80"),
    (S "x-bare-protocol", S "http:"), (S "x-bare-path", S "/"),
    (S "x-bare-headers", S "\x7b\x22accept\x22:\x22text/html\x22\x7d"),
    (S "x-bare-forward-headers", S "[]")], false⟩

/-- A `JSON.parse` oracle for `c2ReqW`: its `x-bare-headers` value parses
to a single `accept` property. -/
def c2ParseHdrsW : JsonObjParser :=
  fun _ => .ok [(S "accept", JsVal.str (S "text/html"))]

/-- A `JSON.parse` oracle for `c2ReqW`: its `x-bare-forward-headers`
value parses to the empty array. -/
def c2ParseFwdW : JsonArrParser := fun _ => .ok []

/-- A `new URL` oracle that accepts every string. -/
def c2ParseURLW : URLParser :=
  fun _ => .ok ⟨S "http:", S "example.com", S "", S "/", S ""⟩

/-- A concrete v3 request that asks, via `x-bare-forward-headers`, for the
inbound `content-length` header to be forwarded. -/
def c2ReqCx : BareRequestM :=
  ⟨[(S "content-length", S "5"),
    (S "x-bare-url", S "http://example.com/"),
    (S "x-bare-headers", S "\x7b\x7d"),
    (S "x-bare-forward-headers", S "content-length")], false⟩

/-- A `JSON.parse` oracle for `c2ReqCx`: `x-bare-headers` is the empty
object. -/
def c2ParseHdrsCx : JsonObjParser := fun _ => .ok []

/-- The split oracle for `c2ReqCx`: its `x-bare-forward-headers` value has
no comma, so the split is the singleton list. -/
def c2SplitCWCx : CommaSplit := fun s => [s]

/-- A v1 request with no `x-bare-host` header: `readHeaders` throws
`BareError(400, MISSING_BARE_HEADER)`. -/
def c1ReqNoHost : BareRequestM := ⟨[(S "x-bare-port", S "80")], false⟩

/-! ## createBareServer option resolution and the bareFetch filter stage

`bareFetch` (src/requestUtil.ts) runs `if (options.filterRemote) await
options.filterRemote(remote);` before it builds and issues the outgoing
request, so a throw from the filter rejects the request before any
connection is attempted.  `createBareServer` (part_006) installs the
default filter only under `init.blockLocal ?? true`, and only if the
caller supplied none (`init.filterRemote ??= …`).  The ipaddr.js
classifiers `isValid` and `parse(·).range()` are modeled as oracle
functions. -/

abbrev FilterRemoteM := URLRec → Except Thrown Unit

/-- The default `init.filterRemote` from `createBareServer`:
`if (isValid(url.hostname) && parse(url.hostname).range() !== 'unicast')
throw new RangeError('Forbidden IP')`. -/
def defaultFilterRemote (ipValid : JsStr → Bool) (ipRange : JsStr → JsStr) :
    FilterRemoteM := fun url =>
  if ipValid url.hostname && !(ipRange url.hostname == S "unicast") then
    .error (.err (S "RangeError") (S "Forbidden IP"))
  else .ok ()

/-- The `init.blockLocal ?? true` / `init.filterRemote ??=` resolution in
`createBareServer`. -/
def resolveFilterRemote (ipValid : JsStr → Bool) (ipRange : JsStr → JsStr)
    (blockLocal : Option Bool) (filterRemote : Option FilterRemoteM) :
    Option FilterRemoteM :=
  if blockLocal.getD true then
    some (filterRemote.getD (defaultFilterRemote ipValid ipRange))
  else filterRemote

/-- The filter stage at the top of `bareFetch`, run before the outgoing
request is created. -/
def bareFetchFilter (filterRemote : Option FilterRemoteM) (remote : URLRec) :
    Except Thrown Unit :=
  match filterRemote with
  | some f => f remote
  | none => .ok ()

/-- ipaddr.js `isValid` restricted to the two hostnames used in the
witness. -/
def ipValidW : JsStr → Bool := fun h =>
  h == S "127.0.0.1" || h == S "93.184.216.34"

/-- ipaddr.js `parse(·).range()` for the witness hostnames. -/
def ipRangeW : JsStr → JsStr := fun h =>
  if h == S "127.0.0.1" then S "loopback" else S "unicast"

/-- `new URL('http://127.0.0.1/')`. -/
def remoteLoopback : URLRec := ⟨S "http:", S "127.0.0.1", S "", S "/", S ""⟩

/-- `new URL('http://93.184.216.34/')`. -/
def remoteUnicast : URLRec := ⟨S "http:", S "93.184.216.34", S "", S "/", S ""⟩

/-! ## The meta store (src/Database.ts) and the ws-meta endpoints

`options.database` is a `JSONDatabaseAdapter` over a key/value store;
the endpoints read and write `CommonMeta` records `{expires, value}` with
`value : MetaV1 | MetaV2`.  The store is modeled as an association list
with `Map` semantics, and the endpoints as state-passing functions
returning the updated store next to the thrown/returned value, so that
deletion and non-deletion are directly observable. -/

/-- `MetaV2['response']`: `{ status, statusText, headers }`. -/
structure MetaRespV2 where
  status : Nat
  statusText : JsStr
  headers : ObjMap
deriving DecidableEq, Repr

/-- `MetaV1 | MetaV2` (src/Database.ts).  A `MetaV1.response` holds only a
`headers` field, so it is carried directly as the optional header map. -/
inductive MetaValue where
  | v1 (response : Option ObjMap)
  | v2 (remote : JsStr) (sendHeaders : ObjMap) (forwardHeaders : List JsStr)
      (response : Option MetaRespV2)
deriving DecidableEq, Repr

/-- `CommonMeta`: the stored record `{expires, value}`. -/
structure CommonMeta where
  expires : Nat
  value : MetaValue
deriving DecidableEq, Repr

/-- The meta store: ids to records, with `Map` get/set/delete. -/
abbrev DB := List (JsStr × CommonMeta)

def dbGet (db : DB) (id : JsStr) : Option CommonMeta :=
  (db.find? (fun p => p.1 == id)).map (fun p => p.2)

def dbSet (db : DB) (id : JsStr) (m : CommonMeta) : DB :=
  if db.any (fun p => p.1 == id) then
    db.map (fun p => if p.1 == id then (p.1, m) else p)
  else db ++ [(id, m)]

def dbDelete (db : DB) (id : JsStr) : DB :=
  db.filter (fun p => !(p.1 == id))

/-- `BareError(400, …'Unregistered ID')` from `wsMeta`/`getMeta` (note the
message has no trailing period, unlike the readHeaders errors). -/
def unregisteredIdError : BareError :=
  ⟨400, ⟨S "INVALID_BARE_HEADER", S "request.headers.x-bare-id",
    some (S "Unregistered ID"), none⟩⟩

/-- `BareError(400, …'Meta not ready')` from v2 `getMeta`. -/
def metaNotReadyError : BareError :=
  ⟨400, ⟨S "INVALID_BARE_HEADER", S "request.headers.x-bare-id",
    some (S "Meta not ready"), none⟩⟩

/-- `BareError(400, …'Header was not specified')` from `wsMeta`/`getMeta`
(again without the trailing period of the readHeaders variant). -/
def missingIdError : BareError :=
  ⟨400, ⟨S "MISSING_BARE_HEADER", S "request.headers.x-bare-id",
    some (S "Header was not specified"), none⟩⟩

/-- v1 `wsMeta` (src/V1.ts): `meta?.value.v !== 1` rejects both a missing
record and a v2 record; on success the record is deleted and
`meta.value.response?.headers` is returned. -/
def wsMetaV1 (reqHeaders : HeadersM) (db : DB) :
    DB × Except Thrown (Option ObjMap) :=
  match hGet reqHeaders (S "x-bare-id") with
  | none => (db, .error (.bare missingIdError))
  | some id =>
    match dbGet db id with
    | none => (db, .error (.bare unregisteredIdError))
    | some meta =>
      match meta.value with
      | .v1 response => (dbDelete db id, .ok response)
      | .v2 _ _ _ _ => (db, .error (.bare unregisteredIdError))

/-- v2 `getMeta` (part_013): `meta?.value.v !== 2` rejects missing/v1
records; a v2 record without a recorded response throws `Meta not ready`
*before* the `database.delete(id)` call; otherwise the record is deleted
and the recorded response is used. -/
def getMetaV2 (reqHeaders : HeadersM) (db : DB) :
    DB × Except Thrown MetaRespV2 :=
  match hGet reqHeaders (S "x-bare-id") with
  | none => (db, .error (.bare missingIdError))
  | some id =>
    match dbGet db id with
    | none => (db, .error (.bare unregisteredIdError))
    | some meta =>
      match meta.value with
      | .v1 _ => (db, .error (.bare unregisteredIdError))
      | .v2 _ _ _ none => (db, .error (.bare metaNotReadyError))
      | .v2 _ _ _ (some resp) => (dbDelete db id, .ok resp)

/-- The meta write at the end of v2 `tunnelSocket` (part_013): if the
record exists and has `v = 2`, its `response` field is filled with the
remote response and the record is stored back; otherwise the socket was
ended and nothing is written. -/
def tunnelSocketRecordResponse (db : DB) (id : JsStr) (resp : MetaRespV2) :
    DB :=
  match dbGet db id with
  | none => db
  | some meta =>
    match meta.value with
    | .v1 _ => db
    | .v2 remote sh fh _ =>
      dbSet db id ⟨meta.expires, .v2 remote sh fh (some resp)⟩

instance : Nonempty CommonMeta := ⟨⟨0, MetaValue.v1 none⟩⟩

/-- A ws-meta request carrying `x-bare-id: abc`. -/
def metaReqW : HeadersM := [(S "x-bare-id", S "abc")]

/-- A store holding a completed v1 record under `abc`. -/
def dbV1W : DB :=
  [(S "abc", ⟨100, .v1 (some [(S "set-cookie", HVal.one (S "a=1"))])⟩)]

/-- A store holding a completed v2 record under `abc`. -/
def dbV2W : DB :=
  [(S "abc", ⟨100, .v2 (S "ws://example.com/") [] []
    (some ⟨101, S "Switching Protocols", []⟩)⟩)]

/-- A store holding a v2 record under `abc` whose relay has not yet
recorded a response. -/
def dbV2Pending : DB :=
  [(S "abc", ⟨100, .v2 (S "ws://example.com/")
    [(S "upgrade", HVal.one (S "websocket"))] [] none⟩)]

/-- The pending v2 record stored in `dbV2Pending`. -/
def pendingMetaW : CommonMeta :=
  ⟨100, .v2 (S "ws://example.com/")
    [(S "upgrade", HVal.one (S "websocket"))] [] none⟩

/-- The remote response the relay records in the witness. -/
def relayRespW : MetaRespV2 := ⟨101, S "Switching Protocols", []⟩

/-! ## The v2/v3 envelope encoder (part_013 `tunnelRequest` / src/V3.ts
`tunnelRequest`): the two code bodies are character-for-character
identical after the fetch, so one embedding serves both. -/

/-- `nullBodyStatus` from src/requestUtil.ts. -/
def nullBodyStatus : List Nat := [101, 204, 205, 304]

/-- The upstream `IncomingMessage` as the encoder reads it: `statusCode`,
`statusMessage`, the lowercased `headers` object and the flat
`rawHeaders` list. -/
structure UpstreamResponse where
  statusCode : Nat
  statusMessage : JsStr
  headers : ObjMap
  rawHeaders : List JsStr

/-- `JSON.stringify` on a header map, modeled as an opaque pure
function. -/
abbrev JsonStringify := ObjMap → JsStr

/-- The `passHeaders` loop: copy each requested upstream header (when
present) into the fresh envelope `Headers`, flattening arrays. -/
def passHeadersFold (passHeaders : List JsStr) (upstream : ObjMap) :
    HeadersM :=
  passHeaders.foldl (fun acc header =>
    match objGet upstream header with
    | none => acc
    | some v => hSet acc header (flattenHeader v)) []

/-- `const status = passStatus.includes(response.statusCode) ?
response.statusCode : 200`. -/
def tunnelEnvelopeStatus (passStatus : List Int) (response : UpstreamResponse) :
    Nat :=
  if passStatus.contains (response.statusCode : Int) then response.statusCode
  else 200

/-- The envelope headers before `splitHeaders`: the pass loop, then —
unless the envelope status is 304 (`cacheNotModified`) — `x-bare-status`,
`x-bare-status-text` and `x-bare-headers`. -/
def tunnelResponseHeadersPre (strfy : JsonStringify) (passHeaders : List JsStr)
    (passStatus : List Int) (response : UpstreamResponse) : HeadersM :=
  if ¬tunnelEnvelopeStatus passStatus response = cacheNotModified then
    hSet (hSet (hSet (passHeadersFold passHeaders response.headers)
      (S "x-bare-status") (natDec response.statusCode))
      (S "x-bare-status-text") response.statusMessage)
      (S "x-bare-headers")
      (strfy (mapHeadersFromArray (rawHeaderNames response.rawHeaders)
        response.headers))
  else passHeadersFold passHeaders response.headers

/-- The `new Response(...)` of the tunnel handler: status, headers after
`splitHeaders`, and whether a body is attached
(`nullBodyStatus.includes(status) ? undefined : Readable.toWeb(response)`). -/
structure EnvelopeResponse where
  status : Nat
  headers : HeadersM
  hasBody : Bool
deriving DecidableEq, Repr

def tunnelResponse (strfy : JsonStringify) (passHeaders : List JsStr)
    (passStatus : List Int) (response : UpstreamResponse) : EnvelopeResponse :=
  ⟨tunnelEnvelopeStatus passStatus response,
   splitHeaders (tunnelResponseHeadersPre strfy passHeaders passStatus response),
   !(nullBodyStatus.contains (tunnelEnvelopeStatus passStatus response))⟩

/-- The upstream response used in the C4 witness. -/
def respW4 : UpstreamResponse :=
  ⟨200, S "OK", [(S "content-encoding", HVal.one (S "gzip"))],
   [S "Content-Encoding", S "gzip"]⟩

/-- A 304 upstream response with `passStatus = [304]` (cache mode). -/
def resp304 : UpstreamResponse := ⟨304, S "Not Modified", [], []⟩

/-- A constant `JSON.stringify` oracle. -/
def strfyW : JsonStringify := fun _ => S "sh"

end Bare

namespace Bare

/-! ### Protocol codec lemmas -/

set_option maxRecDepth 8192 in
theorem hex2_roundtrip : ∀ c, c < 256 → parseHex2 (padHex2 (natHexDigits c)) = some c := by
  decide

set_option maxRecDepth 8192 in
theorem hex2_length : ∀ c, c < 256 → (padHex2 (natHexDigits c)).length = 2 := by
  decide

theorem decodeProtocol_cons_ne (c : Nat) (l : List Nat) (h : c ≠ reserveChar) :
    decodeProtocol (c :: l) = c :: decodeProtocol l := by
  rw [decodeProtocol.eq_def]
  simp [h]

theorem decodeProtocol_escape (a b : Nat) (t : List Nat) :
    decodeProtocol (reserveChar :: a :: b :: t) =
      (parseHex2 [a, b]).getD 0 :: decodeProtocol t := by
  rw [decodeProtocol.eq_def]
  simp

theorem decode_encode_of_latin1 (l : List Nat) (h : ∀ c ∈ l, c < 256) :
    decodeProtocol (encodeProtocol l) = l := by
  induction l with
  | nil => rfl
  | cons c rest ih =>
    have hc : c < 256 := h c (List.mem_cons_self c rest)
    have hrest : ∀ x ∈ rest, x < 256 := fun x hx => h x (List.mem_cons_of_mem c hx)
    rw [encodeProtocol]
    by_cases hv : (validCharCode c && decide (c ≠ reserveChar)) = true
    · have hc37 : c ≠ reserveChar := by
        intro hEq
        rw [hEq] at hv
        simp at hv
      rw [if_pos hv, List.singleton_append, decodeProtocol_cons_ne c _ hc37, ih hrest]
    · obtain ⟨a, b, hab⟩ := List.length_eq_two.1 (hex2_length c hc)
      rw [if_neg hv, hab]
      have hparse : parseHex2 [a, b] = some c := by
        rw [← hab]; exact hex2_roundtrip c hc
      show decodeProtocol (reserveChar :: a :: b :: encodeProtocol rest) = c :: rest
      rw [decodeProtocol_escape, hparse, ih hrest]
      rfl

/-! ### Decimal stringification parses back -/

theorem digitChar_props :
    ∀ m, m < 10 → (Char.ofNat (48 + m)).toNat = 48 + m ∧
      isDecDigit (Char.ofNat (48 + m)) = true := by
  decide

theorem decDigitsAux_spec :
    ∀ fuel n, n < 10 ^ (fuel + 1) →
      decDigitsAux (fuel + 1) n ≠ [] ∧
      (∀ c ∈ decDigitsAux (fuel + 1) n, isDecDigit c = true) ∧
      (decDigitsAux (fuel + 1) n).foldl (fun a c => a * 10 + decDigitVal c) 0 = n := by
  intro fuel
  induction fuel with
  | zero =>
    intro n hn
    have h10 : n < 10 := by simpa using hn
    obtain ⟨htn, hdd⟩ := digitChar_props n h10
    refine ⟨by simp [decDigitsAux, h10], ?_, ?_⟩
    · intro c hc
      simp [decDigitsAux, h10] at hc
      subst hc
      exact hdd
    · simp [decDigitsAux, h10, decDigitVal, htn]
  | succ g ih =>
    intro n hn
    by_cases h10 : n < 10
    · obtain ⟨htn, hdd⟩ := digitChar_props n h10
      refine ⟨by simp [decDigitsAux, h10], ?_, ?_⟩
      · intro c hc
        simp [decDigitsAux, h10] at hc
        subst hc
        exact hdd
      · simp [decDigitsAux, h10, decDigitVal, htn]
    · rw [pow_succ] at hn
      have hdiv : n / 10 < 10 ^ (g + 1) :=
        Nat.div_lt_of_lt_mul (by omega)
      obtain ⟨hne, hdig, hval⟩ := ih (n / 10) hdiv
      have hm10 : n % 10 < 10 := Nat.mod_lt n (by norm_num)
      obtain ⟨htn, hdd⟩ := digitChar_props (n % 10) hm10
      have heq : decDigitsAux (g + 1 + 1) n =
          decDigitsAux (g + 1) (n / 10) ++ [Char.ofNat (48 + n % 10)] := by
        simp [decDigitsAux, h10]
      refine ⟨by simp [heq], ?_, ?_⟩
      · intro c hc
        rw [heq] at hc
        rcases List.mem_append.1 hc with h1 | h2
        · exact hdig c h1
        · simp at h2
          subst h2
          exact hdd
      · rw [heq, List.foldl_append, hval]
        simp only [List.foldl_cons, List.foldl_nil, decDigitVal, htn]
        omega

theorem natDec_spec (n : Nat) :
    natDec n ≠ [] ∧ (∀ c ∈ natDec n, isDecDigit c = true) ∧
      (natDec n).foldl (fun a c => a * 10 + decDigitVal c) 0 = n := by
  have hn : n < 10 ^ (n + 1) := by
    calc n < n + 1 := Nat.lt_succ_self n
      _ ≤ 10 ^ (n + 1) := (Nat.lt_pow_self (by norm_num) (n + 1)).le
  exact decDigitsAux_spec n n hn

theorem decDigit_toNat (c : Char) (h : isDecDigit c = true) :
    48 ≤ c.toNat ∧ c.toNat ≤ 57 := by
  simp only [isDecDigit, Bool.and_eq_true, decide_eq_true_eq] at h
  obtain ⟨h1, h2⟩ := h
  rw [Char.le_def] at h1 h2
  exact ⟨h1, h2⟩

theorem char_ne_of_toNat_ne (c d : Char) (h : ¬c.toNat = d.toNat) : ¬c = d :=
  fun hEq => h (by rw [hEq])

theorem decDigit_facts (c : Char) (h : isDecDigit c = true) :
    jsWhitespace c = false ∧ ¬c = '-' ∧ ¬c = '+' ∧ ¬c = 'x' ∧ ¬c = 'X' := by
  obtain ⟨hlo, hhi⟩ := decDigit_toNat c h
  have f1 : ¬c = ' ' := char_ne_of_toNat_ne c ' ' (by intro hc; rw [hc] at hlo hhi; revert hlo hhi; decide)
  have f2 : ¬c = '\t' := char_ne_of_toNat_ne c '\t' (by intro hc; rw [hc] at hlo hhi; revert hlo hhi; decide)
  have f3 : ¬c = '\n' := char_ne_of_toNat_ne c '\n' (by intro hc; rw [hc] at hlo hhi; revert hlo hhi; decide)
  have f4 : ¬c = '\r' := char_ne_of_toNat_ne c '\r' (by intro hc; rw [hc] at hlo hhi; revert hlo hhi; decide)
  have f5 : ¬c = '\x0b' := char_ne_of_toNat_ne c '\x0b' (by intro hc; rw [hc] at hlo hhi; revert hlo hhi; decide)
  have f6 : ¬c = '\x0c' := char_ne_of_toNat_ne c '\x0c' (by intro hc; rw [hc] at hlo hhi; revert hlo hhi; decide)
  have f7 : ¬c = '-' := char_ne_of_toNat_ne c '-' (by intro hc; rw [hc] at hlo hhi; revert hlo hhi; decide)
  have f8 : ¬c = '+' := char_ne_of_toNat_ne c '+' (by intro hc; rw [hc] at hlo hhi; revert hlo hhi; decide)
  have f9 : ¬c = 'x' := char_ne_of_toNat_ne c 'x' (by intro hc; rw [hc] at hlo hhi; revert hlo hhi; decide)
  have f10 : ¬c = 'X' := char_ne_of_toNat_ne c 'X' (by intro hc; rw [hc] at hlo hhi; revert hlo hhi; decide)
  refine ⟨?_, f7, f8, f9, f10⟩
  simp [jsWhitespace, decide_eq_false f1, decide_eq_false f2, decide_eq_false f3,
    decide_eq_false f4, decide_eq_false f5, decide_eq_false f6]

theorem digitRunVal_natDec (n : Nat) :
    digitRunVal isDecDigit decDigitVal 10 (natDec n) = some n := by
  obtain ⟨hne, hdig, hval⟩ := natDec_spec n
  have htw : (natDec n).takeWhile isDecDigit = natDec n :=
    List.takeWhile_eq_self_iff.2 (by
      intro a ha
      exact hdig a ha)
  obtain ⟨c, rest, hcr⟩ := List.exists_cons_of_ne_nil hne
  unfold digitRunVal
  rw [htw, hcr]
  rw [hcr, List.foldl_cons] at hval
  simp only [Option.some.injEq]
  simpa using hval

theorem jsParseInt_natDec (n : Nat) : jsParseInt (natDec n) = some (n : Int) := by
  obtain ⟨hne, hdig, hval⟩ := natDec_spec n
  obtain ⟨c, rest, hcr⟩ := List.exists_cons_of_ne_nil hne
  have hdc : isDecDigit c = true := hdig c (by rw [hcr]; exact List.mem_cons_self c rest)
  obtain ⟨hws, hminus, hplus, _, _⟩ := decDigit_facts c hdc
  have hdrop : (natDec n).dropWhile jsWhitespace = c :: rest := by
    rw [hcr, List.dropWhile_cons, hws]
    simp
  have hrun : digitRunVal isDecDigit decDigitVal 10 (c :: rest) = some n := by
    rw [← hcr]; exact digitRunVal_natDec n
  have hsigned : jsParseIntSigned 1 (c :: rest) = some (n : Int) := by
    rcases rest with _ | ⟨x, r2⟩
    · rw [jsParseIntSigned]
      · rw [hrun]
        simp
      · intro x r hcontra
        simp at hcontra
    · by_cases hc0 : c = '0'
      · subst hc0
        have hx : isDecDigit x = true := by
          apply hdig
          rw [hcr]
          exact List.mem_cons_of_mem _ (List.mem_cons_self x r2)
        obtain ⟨_, _, _, hxx, hxX⟩ := decDigit_facts x hx
        rw [jsParseIntSigned]
        rw [if_neg (by
          intro hor
          rcases hor with h1 | h1
          · exact hxx h1
          · exact hxX h1)]
        rw [hrun]
        simp
      · rw [jsParseIntSigned]
        · rw [hrun]
          simp
        · intro y r hcontra
          apply hc0
          injection hcontra with h1 _
  rw [jsParseInt, hdrop]
  show (if c = '-' then jsParseIntSigned (-1) (rest) else
    if c = '+' then jsParseIntSigned 1 rest else jsParseIntSigned 1 (c :: rest)) = some (n : Int)
  rw [if_neg hminus, if_neg hplus]
  exact hsigned

theorem natDec_injective (a b : Nat) (h : natDec a = natDec b) : a = b := by
  have ha := jsParseInt_natDec a
  have hb := jsParseInt_natDec b
  rw [h, hb] at ha
  simpa using ha.symm

/-! ### Lowercasing and fragment-key lemmas -/

theorem digit_toLower (c : Char) (h : isDecDigit c = true) : c.toLower = c := by
  obtain ⟨hlo, hhi⟩ := decDigit_toNat c h
  rw [Char.toLower]
  rw [if_neg]
  intro hcond
  omega

theorem jsToLower_natDec (i : Nat) : jsToLower (natDec i) = natDec i := by
  obtain ⟨_, hdig, _⟩ := natDec_spec i
  unfold jsToLower
  calc (natDec i).map Char.toLower = (natDec i).map id := by
        apply List.map_congr_left
        intro a ha
        simpa using digit_toLower a (hdig a ha)
    _ = natDec i := List.map_id _

theorem jsToLower_append (a b : JsStr) :
    jsToLower (a ++ b) = jsToLower a ++ jsToLower b :=
  List.map_append _ a b

theorem jsToLower_fragKey (i : Nat) :
    jsToLower (S "x-bare-headers-" ++ natDec i) = S "x-bare-headers-" ++ natDec i := by
  rw [jsToLower_append, jsToLower_natDec]
  have : jsToLower (S "x-bare-headers-") = S "x-bare-headers-" := by decide
  rw [this]

theorem fragKey_split :
    S "x-bare-headers-" = S "x-bare-headers" ++ ['-'] := by decide

theorem fragKey_prefixed (i : Nat) :
    (S "x-bare-headers").isPrefixOf (S "x-bare-headers-" ++ natDec i) = true := by
  rw [List.isPrefixOf_iff_prefix, fragKey_split, List.append_assoc]
  exact List.prefix_append _ _

theorem fragKey_inj (i j : Nat)
    (h : S "x-bare-headers-" ++ natDec i = S "x-bare-headers-" ++ natDec j) : i = j :=
  natDec_injective _ _ (List.append_cancel_left h)

theorem fragKey_ne_xbh (i : Nat) :
    ¬(S "x-bare-headers-" ++ natDec i = S "x-bare-headers") := by
  intro hEq
  have hlen := congrArg List.length hEq
  rw [List.length_append] at hlen
  have h15 : (S "x-bare-headers-").length = 15 := by decide
  have h14 : (S "x-bare-headers").length = 14 := by decide
  omega

/-! ### Headers-model lemmas -/

theorem hGet_hDelete_ne (h : HeadersM) (n m : JsStr)
    (hne : ¬jsToLower n = jsToLower m) :
    hGet (hDelete h m) n = hGet h n := by
  unfold hGet hDelete
  induction h with
  | nil => rfl
  | cons p t ih =>
    by_cases hp : p.1 = jsToLower m
    · rw [List.filter_cons_of_neg (by simpa using hp)]
      rw [List.find?_cons_of_neg]
      · exact ih
      · simp only [decide_eq_true_eq]
        intro hcontra
        exact hne (by rw [← hcontra, hp])
    · rw [List.filter_cons_of_pos (by simpa using hp)]
      by_cases hpn : p.1 = jsToLower n
      · rw [List.find?_cons_of_pos _ (by simpa using hpn),
          List.find?_cons_of_pos _ (by simpa using hpn)]
      · rw [List.find?_cons_of_neg _ (by simpa using hpn),
          List.find?_cons_of_neg _ (by simpa using hpn)]
        exact ih

theorem hHas_hDelete_self (h : HeadersM) (m : JsStr) :
    hHas (hDelete h m) m = false := by
  unfold hHas hDelete
  rw [List.any_eq_false]
  intro p hp
  simp only [List.mem_filter, decide_eq_true_eq] at hp ⊢
  obtain ⟨_, hkey⟩ := hp
  simpa using hkey

theorem find?_eq_none_of_hHas_false (h : HeadersM) (n : JsStr)
    (hh : hHas h n = false) :
    h.find? (fun p => p.1 = jsToLower n) = none := by
  rw [List.find?_eq_none]
  intro p hp
  unfold hHas at hh
  rw [List.any_eq_false] at hh
  exact hh p hp

theorem hGet_append (a b : HeadersM) (n : JsStr) :
    hGet (a ++ b) n = ((a.find? (fun p => p.1 = jsToLower n)).or
      (b.find? (fun p => p.1 = jsToLower n))).map Prod.snd := by
  unfold hGet
  rw [List.find?_append]

theorem hSet_of_not_has (h : HeadersM) (n v : JsStr) (hh : hHas h n = false) :
    hSet h n v = h ++ [(jsToLower n, v)] := by
  unfold hSet hHas at *
  rw [if_neg]
  rw [← Bool.not_eq_true] at hh
  exact fun hcontra => hh hcontra

/-! ### `splitHeaders` fold and chunk lemmas -/

theorem hHas_append (a b : HeadersM) (n : JsStr) :
    hHas (a ++ b) n = (hHas a n || hHas b n) := by
  unfold hHas
  rw [List.any_append]

theorem fold_hSet_fresh (L : List (Nat × JsStr)) :
    ∀ acc : HeadersM,
      (∀ p ∈ L, hHas acc (S "x-bare-headers-" ++ natDec p.1) = false) →
      (L.map Prod.fst).Nodup →
      L.foldl (fun acc p => hSet acc (S "x-bare-headers-" ++ natDec p.1) (';' :: p.2)) acc
        = acc ++ L.map (fun p => (S "x-bare-headers-" ++ natDec p.1, ';' :: p.2)) := by
  induction L with
  | nil => intro acc _ _; simp
  | cons q L ih =>
    intro acc hfresh hnodup
    rw [List.foldl_cons]
    rw [hSet_of_not_has _ _ _ (hfresh q (List.mem_cons_self q L)), jsToLower_fragKey]
    rw [ih _ ?_ ?_]
    · simp
    · intro p hp
      rw [hHas_append, Bool.or_eq_false_iff]
      refine ⟨hfresh p (List.mem_cons_of_mem q hp), ?_⟩
      unfold hHas
      rw [List.any_eq_false]
      intro x hx
      simp only [List.mem_singleton] at hx
      subst hx
      simp only [decide_eq_true_eq, jsToLower_fragKey]
      intro hcontra
      have hij := fragKey_inj _ _ hcontra
      rw [List.map_cons, List.nodup_cons] at hnodup
      exact hnodup.1 (hij ▸ List.mem_map_of_mem Prod.fst hp)
    · rw [List.map_cons, List.nodup_cons] at hnodup
      exact hnodup.2

theorem chunkListCore_cons (fuel : Nat) (c : Char) (l : List Char) :
    chunkListCore (fuel + 1) (c :: l) =
      (c :: l).take MAX_HEADER_VALUE :: chunkListCore fuel ((c :: l).drop MAX_HEADER_VALUE) :=
  rfl

theorem chunkListCore_nil (fuel : Nat) : chunkListCore fuel [] = [] := by
  cases fuel <;> rfl

theorem chunkListCore_flatten :
    ∀ fuel (l : List Char), l.length ≤ fuel → (chunkListCore fuel l).flatten = l := by
  intro fuel
  induction fuel with
  | zero =>
    intro l hl
    rw [List.length_eq_zero.1 (Nat.le_zero.1 hl), chunkListCore_nil]
    rfl
  | succ f ih =>
    intro l hl
    match l with
    | [] => rw [chunkListCore_nil]; rfl
    | c :: t =>
      rw [chunkListCore_cons, List.flatten_cons, ih _ ?_, List.take_append_drop]
      have : ((c :: t).drop MAX_HEADER_VALUE).length = (c :: t).length - MAX_HEADER_VALUE := by
        rw [List.length_drop]
      rw [this]
      simp only [List.length_cons] at hl ⊢
      have hM : 1 ≤ MAX_HEADER_VALUE := by decide
      omega

theorem chunkList_flatten (l : List Char) : (chunkList l).flatten = l :=
  chunkListCore_flatten l.length l (Nat.le_refl _)

theorem chunkList_cons (c : Char) (t : List Char) :
    chunkList (c :: t) =
      (c :: t).take MAX_HEADER_VALUE :: chunkListCore t.length ((c :: t).drop MAX_HEADER_VALUE) := by
  unfold chunkList
  rw [List.length_cons, chunkListCore_cons]

/-! ### `collectFrags` and `arrayJoin` lemmas -/

theorem collectFrags_append_unprefixed (a b : HeadersM)
    (ha : ∀ p ∈ a, (S "x-bare-headers").isPrefixOf p.1 = false) :
    collectFrags (a ++ b) = collectFrags b := by
  induction a with
  | nil => rfl
  | cons p t ih =>
    rw [List.cons_append, collectFrags]
    rw [ha p (List.mem_cons_self p t)]
    simp only [Bool.false_eq_true, if_false]
    exact ih (fun q hq => ha q (List.mem_cons_of_mem p hq))

theorem collectFrags_frags (L : List (Nat × JsStr)) :
    collectFrags (L.map (fun p => (S "x-bare-headers-" ++ natDec p.1, ';' :: p.2)))
      = .ok L := by
  induction L with
  | nil => rfl
  | cons q L ih =>
    rw [List.map_cons, collectFrags]
    rw [fragKey_prefixed q.1]
    simp only [if_true]
    have hsemi : (S ";").isPrefixOf (';' :: q.2) = true := by
      rw [List.isPrefixOf_iff_prefix]
      exact ⟨q.2, rfl⟩
    rw [hsemi]
    simp only [if_true]
    rw [ih]
    have hdrop : (S "x-bare-headers-" ++ natDec q.1).drop 15 = natDec q.1 := by
      have h15 : 15 = (S "x-bare-headers-").length := by decide
      rw [h15, List.drop_left]
    rw [hdrop, jsParseInt_natDec]
    simp

theorem arrayJoinLookup_enumFrom :
    ∀ (C : List JsStr) (s i : Nat), s ≤ i → i < s + C.length →
      (List.enumFrom s C).filterMap
          (fun p => if p.1 = i then some p.2 else none)
        = [C.getD (i - s) []] := by
  intro C
  induction C with
  | nil => intro s i h1 h2; simp at h2; omega
  | cons c t ih =>
    intro s i h1 h2
    rw [List.enumFrom_cons, List.filterMap_cons]
    by_cases hsi : s = i
    · subst hsi
      simp only [if_pos rfl]
      have htail : (List.enumFrom (s + 1) t).filterMap
          (fun p => if p.1 = s then some p.2 else none) = [] := by
        rw [List.filterMap_eq_nil_iff]
        intro p hp
        have hmem := List.mem_enumFrom (x := p.2) (i := p.1) (j := s + 1) (by simpa using hp)
        rw [if_neg (by omega)]
      rw [htail]
      simp
    · rw [if_neg (by omega)]
      rw [ih (s + 1) i (by omega) (by
        rw [List.length_cons] at h2
        omega)]
      have hix : i - s = (i - (s + 1)) + 1 := by omega
      rw [hix, List.getD_cons_succ]

theorem map_range_getD (C : List JsStr) :
    (List.range C.length).map (fun i => C.getD i []) = C := by
  apply List.ext_getElem
  · simp
  · intro i h1 h2
    simp only [List.getElem_map, List.getElem_range]
    rw [List.getD_eq_getElem _ _ h2]

theorem max?_range_succ (k : Nat) : (List.range (k + 1)).max? = some k := by
  rw [List.max?_eq_some_iff (fun a => le_refl a) (fun a b => max_choice a b)
    (fun a b c => max_le_iff)]
  constructor
  · simp
  · intro b hb
    simp only [List.mem_range] at hb
    omega

theorem arrayJoin_enum (C : List JsStr) (hC : C ≠ []) :
    arrayJoin C.enum = C.flatten := by
  unfold arrayJoin
  rw [List.enum_map_fst]
  obtain ⟨k, hk⟩ : ∃ k, C.length = k + 1 := by
    cases hlen : C.length with
    | zero => exact absurd (List.length_eq_zero.1 hlen) hC
    | succ k => exact ⟨k, rfl⟩
  rw [hk, max?_range_succ]
  have hlook : ∀ i < k + 1, arrayJoinLookup C.enum i = some (C.getD i []) := by
    intro i hi
    unfold arrayJoinLookup
    have henum : C.enum = List.enumFrom 0 C := rfl
    rw [henum, arrayJoinLookup_enumFrom C 0 i (Nat.zero_le i) (by omega)]
    simp
  have hmap : (List.range (k + 1)).map (fun i => (arrayJoinLookup C.enum i).getD [])
      = (List.range (k + 1)).map (fun i => C.getD i []) := by
    apply List.map_congr_left
    intro i hi
    rw [hlook i (List.mem_range.1 hi)]
    rfl
  show (List.map (fun i => (arrayJoinLookup C.enum i).getD [])
    (List.range (k + 1))).flatten = C.flatten
  rw [hmap, ← hk, map_range_getD]

theorem collectFrags_error_of_bad (h : HeadersM) :
    ∀ p₀ ∈ h, (S "x-bare-headers").isPrefixOf p₀.1 = true →
      (S ";").isPrefixOf p₀.2 = false →
      ∃ e, collectFrags h = .error e ∧ e.status = 400 ∧
        e.body.code = S "INVALID_BARE_HEADER" := by
  induction h with
  | nil => intro p₀ hmem; exact absurd hmem (List.not_mem_nil p₀)
  | cons q t ih =>
    intro p₀ hmem hpref hbad
    show ∃ e, collectFrags (q :: t) = .error e ∧ _
    rcases q with ⟨qn, qv⟩
    rw [collectFrags]
    by_cases hq : (S "x-bare-headers").isPrefixOf qn = true
    · rw [if_pos hq]
      by_cases hsemi : (S ";").isPrefixOf qv = true
      · rw [if_pos hsemi]
        have hp₀t : p₀ ∈ t := by
          rcases List.mem_cons.1 hmem with hEq | hmemT
          · subst hEq
            rw [hsemi] at hbad
            exact absurd hbad (by simp)
          · exact hmemT
        obtain ⟨e, herr, hstat, hcode⟩ := ih p₀ hp₀t hpref hbad
        rw [herr]
        exact ⟨e, rfl, hstat, hcode⟩
      · rw [if_neg hsemi]
        exact ⟨_, rfl, rfl, rfl⟩
    · rw [if_neg hq]
      have hp₀t : p₀ ∈ t := by
        rcases List.mem_cons.1 hmem with hEq | hmemT
        · subst hEq; exact absurd hpref hq
        · exact hmemT
      exact ih p₀ hp₀t hpref hbad

theorem hGet_congr (h : HeadersM) (n m : JsStr) (hnm : jsToLower n = jsToLower m) :
    hGet h n = hGet h m := by
  unfold hGet
  rw [hnm]

theorem hHas_congr (h : HeadersM) (n m : JsStr) (hnm : jsToLower n = jsToLower m) :
    hHas h n = hHas h m := by
  unfold hHas
  rw [hnm]

theorem hHas_of_hGet (h : HeadersM) (n v : JsStr) (hv : hGet h n = some v) :
    hHas h n = true := by
  unfold hGet at hv
  unfold hHas
  rw [List.any_eq_true]
  rcases hfind : h.find? (fun q => q.1 = jsToLower n) with _ | q
  · rw [hfind] at hv; exact absurd hv (by simp)
  · refine ⟨q, List.mem_of_find?_eq_some hfind, ?_⟩
    exact List.find?_some (p := fun r : JsStr × JsStr => decide (r.1 = jsToLower n)) hfind

/-! ### `splitHeaders`/`joinHeaders` round trip -/

theorem splitHeaders_eq (h : HeadersM) (v : JsStr)
    (hv : hGet h (S "x-bare-headers") = some v)
    (hlen : MAX_HEADER_VALUE < v.length)
    (hnop : ∀ p ∈ h, (S "x-bare-headers").isPrefixOf p.1 = true →
      p.1 = S "x-bare-headers") :
    splitHeaders h = hDelete h (S "x-bare-headers") ++
      (chunkList v).enum.map
        (fun p => (S "x-bare-headers-" ++ natDec p.1, ';' :: p.2)) := by
  unfold splitHeaders
  rw [hHas_of_hGet h _ v hv, hv]
  simp only [if_pos hlen, if_true]
  apply fold_hSet_fresh
  · intro p _
    unfold hHas hDelete
    rw [List.any_eq_false]
    intro q hq
    simp only [List.mem_filter, decide_eq_true_eq] at hq
    obtain ⟨hqh, hqne⟩ := hq
    rw [jsToLower_fragKey]
    simp only [decide_eq_true_eq]
    intro hcontra
    have hqpref : (S "x-bare-headers").isPrefixOf q.1 = true := by
      rw [hcontra]; exact fragKey_prefixed p.1
    have hqx := hnop q hqh hqpref
    rw [hcontra] at hqx
    exact fragKey_ne_xbh p.1 hqx
  · rw [List.enum_map_fst]
    exact List.nodup_range _

theorem base_unprefixed (h : HeadersM)
    (hnop : ∀ p ∈ h, (S "x-bare-headers").isPrefixOf p.1 = true →
      p.1 = S "x-bare-headers") :
    ∀ p ∈ hDelete h (S "x-bare-headers"),
      (S "x-bare-headers").isPrefixOf p.1 = false := by
  intro p hp
  unfold hDelete at hp
  simp only [List.mem_filter, decide_eq_true_eq] at hp
  obtain ⟨hph, hpne⟩ := hp
  have hlow : jsToLower (S "x-bare-headers") = S "x-bare-headers" := by decide
  rw [hlow] at hpne
  rcases hpref : (S "x-bare-headers").isPrefixOf p.1 with _ | _
  · rfl
  · exact absurd (hnop p hph hpref) hpne

theorem joinHeaders_splitHeaders (h : HeadersM) (v : JsStr)
    (hv : hGet h (S "x-bare-headers") = some v)
    (hlen : MAX_HEADER_VALUE < v.length)
    (hnop : ∀ p ∈ h, (S "x-bare-headers").isPrefixOf p.1 = true →
      p.1 = S "x-bare-headers") :
    joinHeaders (splitHeaders h)
      = .ok (hDelete h (S "x-bare-headers") ++ [(S "x-bare-headers", v)]) := by
  rw [splitHeaders_eq h v hv hlen hnop]
  have hvne : v ≠ [] := by
    intro hcontra
    rw [hcontra] at hlen
    exact absurd hlen (by decide)
  obtain ⟨cv, tv, hvc⟩ := List.exists_cons_of_ne_nil hvne
  have hchunkne : chunkList v ≠ [] := by
    rw [hvc, chunkList_cons]
    exact List.cons_ne_nil _ _
  obtain ⟨c0, cs, hcc⟩ := List.exists_cons_of_ne_nil hchunkne
  unfold joinHeaders
  have hhas0 : hHas (hDelete h (S "x-bare-headers") ++
      (chunkList v).enum.map
        (fun p => (S "x-bare-headers-" ++ natDec p.1, ';' :: p.2)))
      (S "x-bare-headers-0") = true := by
    rw [hHas_append, Bool.or_eq_true]
    right
    rw [hcc, List.enum_cons, List.map_cons]
    unfold hHas
    rw [List.any_cons]
    have hkey0 : (S "x-bare-headers-" ++ natDec 0
        = jsToLower (S "x-bare-headers-0")) := by decide
    simp [hkey0]
  rw [hhas0]
  simp only [if_true]
  have hcollect : collectFrags (hDelete h (S "x-bare-headers") ++
      (chunkList v).enum.map
        (fun p => (S "x-bare-headers-" ++ natDec p.1, ';' :: p.2)))
      = .ok (chunkList v).enum := by
    rw [collectFrags_append_unprefixed _ _ (base_unprefixed h hnop)]
    exact collectFrags_frags (chunkList v).enum
  rw [hcollect]
  have hjoin : arrayJoin (chunkList v).enum = v := by
    rw [arrayJoin_enum _ hchunkne, chunkList_flatten]
  have hfilter : (hDelete h (S "x-bare-headers") ++
      (chunkList v).enum.map
        (fun p => (S "x-bare-headers-" ++ natDec p.1, ';' :: p.2))).filter
      (fun p => ¬(S "x-bare-headers").isPrefixOf p.1)
      = hDelete h (S "x-bare-headers") := by
    rw [List.filter_append]
    have h1 : (hDelete h (S "x-bare-headers")).filter
        (fun p => ¬(S "x-bare-headers").isPrefixOf p.1)
        = hDelete h (S "x-bare-headers") := by
      rw [List.filter_eq_self]
      intro p hp
      simp only [decide_eq_true_eq]
      rw [base_unprefixed h hnop p hp]
      simp
    have h2 : ((chunkList v).enum.map
        (fun p => (S "x-bare-headers-" ++ natDec p.1, ';' :: p.2))).filter
        (fun p => ¬(S "x-bare-headers").isPrefixOf p.1) = [] := by
      rw [List.filter_eq_nil_iff]
      intro p hp
      rcases List.mem_map.1 hp with ⟨q, _, hq⟩
      subst hq
      simp [fragKey_prefixed]
    rw [h1, h2, List.append_nil]
  simp only [hjoin, hfilter]
  rw [hSet_of_not_has _ _ _ (hHas_hDelete_self h (S "x-bare-headers"))]
  have hlow : jsToLower (S "x-bare-headers") = S "x-bare-headers" := by decide
  rw [hlow]

theorem restored_extensional (h : HeadersM) (v : JsStr)
    (hv : hGet h (S "x-bare-headers") = some v) (n : JsStr) :
    hGet (hDelete h (S "x-bare-headers") ++ [(S "x-bare-headers", v)]) n
      = hGet h n := by
  have hlow : jsToLower (S "x-bare-headers") = S "x-bare-headers" := by decide
  by_cases hcase : jsToLower n = S "x-bare-headers"
  · rw [hGet_append]
    have hbase : (hDelete h (S "x-bare-headers")).find?
        (fun p => p.1 = jsToLower n) = none := by
      apply find?_eq_none_of_hHas_false
      rw [hHas_congr _ n (S "x-bare-headers") (by rw [hcase, hlow])]
      exact hHas_hDelete_self h (S "x-bare-headers")
    rw [hbase, Option.none_or]
    rw [List.find?_cons_of_pos _ (by simp [hcase])]
    rw [hGet_congr h n (S "x-bare-headers") (by rw [hcase, hlow]), hv]
    rfl
  · rw [hGet_append]
    have hsingle : ([((S "x-bare-headers" : JsStr), v)]).find?
        (fun p => p.1 = jsToLower n) = none := by
      rw [List.find?_cons_of_neg]
      · rfl
      · simp only [decide_eq_true_eq]
        exact fun hcontra => hcase hcontra.symm
    rw [hsingle]
    have hbase := hGet_hDelete_ne h n (S "x-bare-headers")
      (by rw [hlow]; exact hcase)
    unfold hGet at hbase ⊢
    rw [Option.or_none]
    exact hbase

theorem splitHeaders_active (h : HeadersM) (v : JsStr)
    (hv : hGet h (S "x-bare-headers") = some v)
    (hlen : MAX_HEADER_VALUE < v.length) :
    splitHeaders h = (chunkList v).enum.foldl
      (fun acc p => hSet acc (S "x-bare-headers-" ++ natDec p.1) (';' :: p.2))
      (hDelete h (S "x-bare-headers")) := by
  unfold splitHeaders
  rw [hHas_of_hGet h _ v hv, hv]
  simp only [if_pos hlen, if_true]

theorem chunkList_replicate_3073 :
    chunkList (List.replicate 3073 'a') = [List.replicate 3072 'a', ['a']] := by
  unfold chunkList
  rw [List.length_replicate]
  rw [show (3073 : Nat) = 3072 + 1 from rfl, List.replicate_succ, chunkListCore_cons,
    ← List.replicate_succ, List.take_replicate, List.drop_replicate]
  have hmin : MAX_HEADER_VALUE ⊓ (3072 + 1) = 3072 := by decide
  have hsub : (3072 + 1) - MAX_HEADER_VALUE = 1 := by decide
  rw [hmin, hsub]
  rw [show List.replicate 1 'a' = ['a'] from rfl]
  rw [show (3072 : Nat) = 3071 + 1 from rfl, chunkListCore_cons]
  rw [show (['a'] : List Char).take MAX_HEADER_VALUE = ['a'] from by decide]
  rw [show (['a'] : List Char).drop MAX_HEADER_VALUE = [] from by decide]
  rw [chunkListCore_nil]

/-- **C5** (corrected).  For a headers map whose `x-bare-headers` value
exceeds 3072 characters and which has no *other* name starting with
`x-bare-headers`, `joinHeaders ∘ splitHeaders` returns (without throwing) a
map observationally equal to the original; and whenever the join path runs
(an `x-bare-headers-0` entry exists) and some `x-bare-headers`-prefixed
entry does not begin with `;`, `joinHeaders` throws
`BareError(400, INVALID_BARE_HEADER)`. -/
theorem C5_split_join_roundtrip :
    (∀ (h : HeadersM) (v : JsStr),
      hGet h (S "x-bare-headers") = some v →
      MAX_HEADER_VALUE < v.length →
      (∀ p ∈ h, (S "x-bare-headers").isPrefixOf p.1 = true →
        p.1 = S "x-bare-headers") →
      joinHeaders (splitHeaders h)
        = .ok (hDelete h (S "x-bare-headers") ++ [(S "x-bare-headers", v)]) ∧
      ∀ n, hGet (hDelete h (S "x-bare-headers") ++ [(S "x-bare-headers", v)]) n
        = hGet h n)
    ∧ (∀ g : HeadersM, ∀ p ∈ g,
        hHas g (S "x-bare-headers-0") = true →
        (S "x-bare-headers").isPrefixOf p.1 = true →
        (S ";").isPrefixOf p.2 = false →
        ∃ e, joinHeaders g = .error e ∧ e.status = 400 ∧
          e.body.code = S "INVALID_BARE_HEADER") := by
  constructor
  · intro h v hv hlen hnop
    exact ⟨joinHeaders_splitHeaders h v hv hlen hnop,
      fun n => restored_extensional h v hv n⟩
  · intro g p hp h0 hpref hbad
    unfold joinHeaders
    rw [h0]
    obtain ⟨e, herr, hs, hc⟩ := collectFrags_error_of_bad g p hp hpref hbad
    rw [herr]
    exact ⟨e, rfl, hs, hc⟩

/-- Witness for C5 at a concrete 3073-character `x-bare-headers` map. -/
theorem C5_split_join_roundtrip_witness :
    hGet oversizedHeaders (S "x-bare-headers") = some (List.replicate 3073 'a') ∧
    MAX_HEADER_VALUE < (List.replicate 3073 'a').length ∧
    joinHeaders (splitHeaders oversizedHeaders)
      = .ok (hDelete oversizedHeaders (S "x-bare-headers")
          ++ [(S "x-bare-headers", List.replicate 3073 'a')]) ∧
    hGet (hDelete oversizedHeaders (S "x-bare-headers")
        ++ [(S "x-bare-headers", List.replicate 3073 'a')]) (S "content-type")
      = hGet oversizedHeaders (S "content-type") := by
  have hlen : MAX_HEADER_VALUE < (List.replicate 3073 'a').length := by
    rw [List.length_replicate]; decide
  have happ := C5_split_join_roundtrip.1 oversizedHeaders
    (List.replicate 3073 'a') rfl hlen (by decide)
  exact ⟨rfl, hlen, happ.1, happ.2 (S "content-type")⟩

/-- **C5 counterexample**: a headers map that also carries a pre-existing
`x-bare-headers-0` entry is *not* restored by
`joinHeaders ∘ splitHeaders` — that entry is silently destroyed — refuting
the claim for arbitrary maps with an oversized `x-bare-headers`. -/
theorem C5_counterexample :
    hGet collidingHeaders (S "x-bare-headers") = some (List.replicate 3073 'a') ∧
    MAX_HEADER_VALUE < (List.replicate 3073 'a').length ∧
    hGet collidingHeaders (S "x-bare-headers-0") = some (S ";x") ∧
    (joinHeaders (splitHeaders collidingHeaders)).toOption.map
      (fun r => hGet r (S "x-bare-headers-0")) = some none := by
  have hlen : MAX_HEADER_VALUE < (List.replicate 3073 'a').length := by
    rw [List.length_replicate]; decide
  refine ⟨rfl, hlen, rfl, ?_⟩
  have hsplit := splitHeaders_active collidingHeaders (List.replicate 3073 'a') rfl hlen
  rw [chunkList_replicate_3073] at hsplit
  have hsplit2 : splitHeaders collidingHeaders =
      [(S "x-bare-headers-0", ';' :: List.replicate 3072 'a'),
        (S "x-bare-headers-1", S ";a")] := by
    rw [hsplit]
    rfl
  rw [hsplit2]
  rfl

/-- **C3** (corrected).  `decodeProtocol (encodeProtocol s) = s` holds for
every string all of whose UTF-16 code units are below 256 — in particular
for strings of the valid protocol characters, which are ASCII — but not for
every string. -/
theorem C3_decode_encode_latin1 (l : List Nat) (h : ∀ c ∈ l, c < 256) :
    decodeProtocol (encodeProtocol l) = l :=
  decode_encode_of_latin1 l h

/-- Witness for C3 on the concrete string `"bare%"`. -/
theorem C3_decode_encode_latin1_witness :
    (∀ c ∈ [98, 97, 114, 101, 37], c < 256) ∧
      decodeProtocol (encodeProtocol [98, 97, 114, 101, 37]) = [98, 97, 114, 101, 37] :=
  ⟨by decide, C3_decode_encode_latin1 [98, 97, 114, 101, 37] (by decide)⟩

/-- **C3 counterexample**: the character U+0100 (code unit 256) encodes to
`%100` but decodes to `"\x10" ++ "0"`, so the round trip fails on general
strings. -/
theorem C3_counterexample :
    decodeProtocol (encodeProtocol [256]) = [16, 48] ∧
      decodeProtocol (encodeProtocol [256]) ≠ [256] := by
  decide

/-! ### C9: raw header names and case restoration -/

theorem charOfNat_toNat (m : Nat) (h : m < 55296) : (Char.ofNat m).toNat = m := by
  unfold Char.ofNat
  rw [dif_pos (Or.inl h)]
  unfold Char.ofNatAux Char.toNat
  show (BitVec.ofNatLt m _).toNat = m
  exact BitVec.toNat_ofNatLt _ _

theorem char_toNat_lt (c : Char) : c.toNat < 1114112 := by
  unfold Char.toNat
  rcases c.valid with h | h <;> omega

theorem toLower_idem (c : Char) : c.toLower.toLower = c.toLower := by
  simp only [Char.toLower]
  by_cases hc : c.toNat ≥ 65 ∧ c.toNat ≤ 90
  · rw [if_pos hc]
    have h1 : (Char.ofNat (c.toNat + 32)).toNat = c.toNat + 32 :=
      charOfNat_toNat _ (by omega)
    rw [if_neg]
    rw [h1]
    omega
  · rw [if_neg hc, if_neg hc]

theorem jsToLower_idem (s : JsStr) : jsToLower (jsToLower s) = jsToLower s := by
  unfold jsToLower
  rw [List.map_map]
  apply List.map_congr_left
  intro c _
  exact toLower_idem c

theorem objHas_iff_exists (o : ObjMap) (k : JsStr) :
    objHas o k = true ↔ ∃ p ∈ o, p.1 = k := by
  unfold objHas
  rw [List.any_eq_true]
  constructor
  · rintro ⟨p, hp, hpk⟩
    exact ⟨p, hp, by simpa using hpk⟩
  · rintro ⟨p, hp, hpk⟩
    exact ⟨p, hp, by simpa using hpk⟩

theorem objGet_isSome_of_has (o : ObjMap) (k : JsStr) (h : objHas o k = true) :
    ∃ v, objGet o k = some v := by
  unfold objHas at h
  unfold objGet
  rcases hfind : o.find? (fun p => p.1 = k) with _ | p
  · rw [List.find?_eq_none] at hfind
    rw [List.any_eq_true] at h
    obtain ⟨p, hp, hpk⟩ := h
    exact absurd hpk (hfind p hp)
  · refine ⟨p.2, ?_⟩
    rw [hfind]
    rfl

theorem objGet_append_left (a b : ObjMap) (k : JsStr) (v : HVal)
    (h : objGet a k = some v) : objGet (a ++ b) k = some v := by
  unfold objGet at h ⊢
  rw [List.find?_append]
  rcases hfind : a.find? (fun p => p.1 = k) with _ | p
  · rw [hfind] at h
    exact absurd h (by simp)
  · rw [hfind] at h ⊢
    exact h

theorem objDelete_append (a b : ObjMap) (k : JsStr) :
    objDelete (a ++ b) k = objDelete a k ++ objDelete b k := by
  unfold objDelete
  rw [List.filter_append]

theorem objDelete_eq_self (o : ObjMap) (k : JsStr)
    (h : ∀ p ∈ o, ¬p.1 = k) : objDelete o k = o := by
  unfold objDelete
  rw [List.filter_eq_self]
  intro p hp
  simpa using h p hp

theorem objHas_delete_iff (o : ObjMap) (k m : JsStr) :
    objHas (objDelete o k) m = true ↔ objHas o m = true ∧ ¬m = k := by
  unfold objHas objDelete
  rw [List.any_eq_true, List.any_eq_true]
  constructor
  · rintro ⟨p, hp, hpk⟩
    rw [List.mem_filter] at hp
    obtain ⟨hpo, hpne⟩ := hp
    simp only [decide_eq_true_eq] at hpk hpne
    exact ⟨⟨p, hpo, by simpa using hpk⟩, fun hmk => hpne (by rw [hpk, hmk])⟩
  · rintro ⟨⟨p, hp, hpk⟩, hmk⟩
    simp only [decide_eq_true_eq] at hpk
    refine ⟨p, List.mem_filter.2 ⟨hp, by simp [hpk]; exact fun hc => hmk (hc ▸ hpk ▸ rfl)⟩,
      by simpa using hpk⟩

theorem objGet_delete_ne (o : ObjMap) (k m : JsStr) (h : ¬m = k) :
    objGet (objDelete o k) m = objGet o m := by
  unfold objGet objDelete
  induction o with
  | nil => rfl
  | cons p t ih =>
    by_cases hpk : p.1 = k
    · rw [List.filter_cons_of_neg (by simpa using hpk)]
      rw [List.find?_cons_of_neg]
      · exact ih
      · simp only [decide_eq_true_eq]
        intro hc
        exact h (by rw [← hc, hpk])
    · rw [List.filter_cons_of_pos (by simpa using hpk)]
      by_cases hpm : p.1 = m
      · rw [List.find?_cons_of_pos _ (by simpa using hpm),
          List.find?_cons_of_pos _ (by simpa using hpm)]
      · rw [List.find?_cons_of_neg _ (by simpa using hpm),
          List.find?_cons_of_neg _ (by simpa using hpm)]
        exact ih

theorem objSet_of_not_has (o : ObjMap) (k : JsStr) (v : HVal)
    (h : objHas o k = false) : objSet o k v = o ++ [(k, v)] := by
  unfold objSet objHas at *
  rw [if_neg]
  rw [← Bool.not_eq_true] at h
  exact fun hc => h hc

theorem objMap_eq_nil_of_no_keys (o : ObjMap)
    (h : ∀ k, objHas o k = false) : o = [] := by
  cases o with
  | nil => rfl
  | cons p t =>
    have := h p.1
    unfold objHas at this
    rw [List.any_cons] at this
    simp at this

theorem mapHeaders_go :
    ∀ (names : List JsStr) (L post : ObjMap),
      (names.map jsToLower).Nodup →
      (∀ k, objHas L k = true ↔ ∃ n ∈ names, jsToLower n = k) →
      (∀ p ∈ post, ∀ m ∈ names, ¬p.1 = jsToLower m ∧ ¬p.1 = m) →
      mapHeadersFromArray names (L ++ post)
        = post ++ names.map (fun n => (n, (objGet L (jsToLower n)).getD (HVal.one []))) := by
  intro names
  induction names with
  | nil =>
    intro L post _ hL _
    have hLnil : L = [] := by
      apply objMap_eq_nil_of_no_keys
      intro k
      rcases hk : objHas L k with _ | _
      · rfl
      · obtain ⟨n, hn, _⟩ := (hL k).1 hk
        exact absurd hn (List.not_mem_nil n)
    rw [hLnil]
    simp [mapHeadersFromArray]
  | cons n rest ih =>
    intro L post h1 hL hpost
    have hlowmem : objHas L (jsToLower n) = true :=
      (hL (jsToLower n)).2 ⟨n, List.mem_cons_self n rest, rfl⟩
    obtain ⟨v, hv⟩ := objGet_isSome_of_has L (jsToLower n) hlowmem
    rw [List.map_cons, List.nodup_cons] at h1
    obtain ⟨h1n, h1rest⟩ := h1
    have hnodupNe : ∀ m ∈ rest, ¬jsToLower n = jsToLower m := by
      intro m hm hc
      exact h1n (hc ▸ List.mem_map_of_mem jsToLower hm)
    rw [mapHeadersFromArray]
    rw [objGet_append_left L post (jsToLower n) v (by
      rcases hget : objGet (L ++ post) (jsToLower n) with _ | w
      · exact hv
      · exact hv)]
    -- reduce the match on `some v`
    show mapHeadersFromArray rest
        (objSet (objDelete (L ++ post) (jsToLower n)) n v) = _
    have hdel : objDelete (L ++ post) (jsToLower n)
        = objDelete L (jsToLower n) ++ post := by
      rw [objDelete_append]
      rw [objDelete_eq_self post (jsToLower n) (fun p hp =>
        (hpost p hp n (List.mem_cons_self n rest)).1)]
    rw [hdel]
    have hfresh : objHas (objDelete L (jsToLower n) ++ post) n = false := by
      rcases hcase : objHas (objDelete L (jsToLower n) ++ post) n with _ | _
      · rfl
      · exfalso
        unfold objHas at hcase
        rw [List.any_append, Bool.or_eq_true] at hcase
        rcases hcase with hc | hc
        · have := (objHas_delete_iff L (jsToLower n) n).1 hc
          obtain ⟨hhasn, hne⟩ := this
          obtain ⟨m, hm, hmn⟩ := (hL n).1 hhasn
          rcases List.mem_cons.1 hm with hEq | hmrest
          · subst hEq
            exact hne hmn.symm
          · have hlowEq : jsToLower n = jsToLower m := by
              rw [← hmn, jsToLower_idem]
            exact hnodupNe m hmrest hlowEq
        · rw [List.any_eq_true] at hc
          obtain ⟨p, hp, hpn⟩ := hc
          simp only [decide_eq_true_eq] at hpn
          exact (hpost p hp n (List.mem_cons_self n rest)).2 hpn
    rw [objSet_of_not_has _ _ _ hfresh, List.append_assoc]
    rw [ih (objDelete L (jsToLower n)) (post ++ [(n, v)]) h1rest ?_ ?_]
    · rw [List.map_cons, List.append_assoc, List.singleton_append]
      have hvv : (objGet L (jsToLower n)).getD (HVal.one []) = v := by
        rw [hv]; rfl
      rw [hvv]
      congr 2
      apply List.map_congr_left
      intro m hm
      rw [objGet_delete_ne L (jsToLower n) (jsToLower m)
        (fun hc => hnodupNe m hm (hc.symm))]
    · intro k
      rw [objHas_delete_iff]
      constructor
      · rintro ⟨hhas, hne⟩
        obtain ⟨m, hm, hmk⟩ := (hL k).1 hhas
        rcases List.mem_cons.1 hm with hEq | hmrest
        · exact absurd (by rw [← hmk, hEq]) hne
        · exact ⟨m, hmrest, hmk⟩
      · rintro ⟨m, hm, hmk⟩
        refine ⟨(hL k).2 ⟨m, List.mem_cons_of_mem n hm, hmk⟩, ?_⟩
        intro hc
        exact hnodupNe m hm (by rw [hc] at hmk; exact hmk.symm)
    · intro p hp m hm
      rcases List.mem_append.1 hp with hpold | hpnew
      · exact hpost p hpold m (List.mem_cons_of_mem n hm)
      · simp only [List.mem_singleton] at hpnew
        subst hpnew
        constructor
        · intro hc
          have hnm : n = jsToLower m := hc
          apply hnodupNe m hm
          calc jsToLower n = jsToLower (jsToLower m) := by rw [← hnm]
            _ = jsToLower m := jsToLower_idem m
        · intro hc
          have hnm : n = m := hc
          apply hnodupNe m hm
          rw [hnm]

theorem evenNames_spec :
    ∀ (fuel : Nat) (raw : List JsStr) (acc : List JsStr), raw.length ≤ fuel →
      rawHeaderNamesAux acc raw = (evenNames raw).foldl
        (fun acc n => if acc.contains n then acc else acc ++ [n]) acc := by
  intro fuel
  induction fuel with
  | zero =>
    intro raw acc hlen
    rw [List.length_eq_zero.1 (Nat.le_zero.1 hlen)]
    rfl
  | succ f ih =>
    intro raw acc hlen
    match raw with
    | [] => rfl
    | [n] =>
      rw [rawHeaderNamesAux, evenNames]
      rfl
    | n :: v :: rest =>
      rw [rawHeaderNamesAux, evenNames, List.foldl_cons]
      apply ih
      simp only [List.length_cons] at hlen ⊢
      omega

/-- **C9** (corrected).  `rawHeaderNames` does return the distinct names in
first-occurrence order, and when no two distinct names of the sequence
share a lowercasing, `mapHeadersFromArray (rawHeaderNames R) L` is exactly
the map sending each original-case name to `L` at its lowercased form.
(When two case-variants of one name occur, the first absorbs the value and
the second is lost, so the unrestricted claim fails.) -/
theorem C9_raw_header_mapping :
    (∀ raw : List JsStr, rawHeaderNames raw = distinctFirstOccur (evenNames raw))
    ∧ (∀ (raw : List JsStr) (L : ObjMap),
        ((rawHeaderNames raw).map jsToLower).Nodup →
        (∀ k, objHas L k = true ↔ ∃ n ∈ rawHeaderNames raw, jsToLower n = k) →
        mapHeadersFromArray (rawHeaderNames raw) L
          = (rawHeaderNames raw).map
              (fun n => (n, (objGet L (jsToLower n)).getD (HVal.one [])))) := by
  constructor
  · intro raw
    exact evenNames_spec raw.length raw [] (le_refl _)
  · intro raw L h1 hL
    have happ := mapHeaders_go (rawHeaderNames raw) L [] h1 hL
      (fun p hp => absurd hp (List.not_mem_nil p))
    rw [List.append_nil, List.nil_append] at happ
    exact happ

/-- Witness for C9 on a concrete two-header sequence. -/
theorem C9_raw_header_mapping_witness :
    rawHeaderNames wRaw = distinctFirstOccur (evenNames wRaw) ∧
    mapHeadersFromArray (rawHeaderNames wRaw) wMap
      = [(S "X-Foo", HVal.one (S "Bar")), (S "Date", HVal.one (S "now"))] := by
  constructor
  · exact C9_raw_header_mapping.1 wRaw
  · have happ := C9_raw_header_mapping.2 wRaw wMap (by decide) ?_
    · rw [happ]
      decide
    · intro k
      constructor
      · intro hk
        unfold wMap objHas at hk
        rw [List.any_cons, List.any_cons, List.any_nil] at hk
        simp only [Bool.or_false, Bool.or_eq_true, decide_eq_true_eq] at hk
        rcases hk with hk | hk
        · exact ⟨S "X-Foo", by decide, by rw [← hk]; decide⟩
        · exact ⟨S "Date", by decide, by rw [← hk]; decide⟩
      · rintro ⟨n, hn, hnk⟩
        have hn4 : n = S "X-Foo" ∨ n = S "Date" := by
          have : rawHeaderNames wRaw = [S "X-Foo", S "Date"] := by decide
          rw [this] at hn
          simpa using hn
        rcases hn4 with hEq | hEq <;> (subst hEq; rw [← hnk]; decide)

/-- **C9 counterexample**: two case-variants of the same header defeat the
claim — `x-a` appears in `rawHeaderNames` but is absent from the rebuilt
map, whose only key is `X-A`. -/
theorem C9_counterexample :
    rawHeaderNames caseCollidingRaw = [S "X-A", S "x-a"] ∧
    mapHeadersFromArray (rawHeaderNames caseCollidingRaw) caseCollidingMap
      = [(S "X-A", HVal.one (S "1, 2"))] ∧
    objGet (mapHeadersFromArray (rawHeaderNames caseCollidingRaw) caseCollidingMap)
      (S "x-a") = none := by
  decide

/-- **C6** (corrected).  The port check of v1/v2 `readHeaders` rejects a
supplied `x-bare-port` with `INVALID_BARE_HEADER` exactly when
`parseInt` yields `NaN`; any value whose `parseInt` succeeds — in
particular every integer in `[1,65535]` in string form, but also
out-of-range values such as `"0"` — passes the check. -/
theorem C6_port_validation :
    ∀ (hs : HeadersM) (host port : JsStr),
      hGet hs (S "x-bare-host") = some host →
      hGet hs (S "x-bare-port") = some port →
      (jsParseInt port = none →
        readRemote hs = .error (.bare (invalidIntegerError (S "x-bare-port"))))
      ∧ (∀ proto path, jsParseInt port ≠ none →
          hGet hs (S "x-bare-protocol") = some proto →
          validProtocols.contains proto = true →
          hGet hs (S "x-bare-path") = some path →
          readRemote hs = .ok ⟨host, port, proto, path⟩) := by
  intro hs host port hhost hport
  constructor
  · intro hnan
    unfold readRemote
    rw [hhost, hport]
    simp [hnan, Bind.bind, Except.bind]
  · intro proto path hnum hproto hvalid hpath
    unfold readRemote
    rw [hhost, hport, hproto, hpath]
    have hsome : (jsParseInt port).isNone = false := by
      rcases hp : jsParseInt port with _ | n
      · exact absurd hp hnum
      · rfl
    simp [hsome, hvalid, Bind.bind, Except.bind]
    exact List.mem_of_elem_eq_true hvalid

/-- Witness for C6: port `"443"` is accepted, port `"abc"` is rejected. -/
theorem C6_port_validation_witness :
    hGet portOkHeaders (S "x-bare-host") = some (S "example.com") ∧
    hGet portOkHeaders (S "x-bare-port") = some (S "443") ∧
    jsParseInt (S "443") ≠ none ∧
    readRemote portOkHeaders
      = .ok ⟨S "example.com", S "443", S "https:", S "/"⟩ ∧
    jsParseInt (S "abc") = none ∧
    readRemote portBadHeaders
      = .error (.bare (invalidIntegerError (S "x-bare-port"))) := by
  refine ⟨rfl, rfl, by decide, ?_, by decide, ?_⟩
  · exact (C6_port_validation portOkHeaders (S "example.com") (S "443") rfl rfl).2
      (S "https:") (S "/") (by decide) rfl (by decide) rfl
  · exact (C6_port_validation portBadHeaders (S "example.com") (S "abc") rfl rfl).1
      (by decide)

/-- **C6 counterexample**: `x-bare-port: 0` is not an integer in
`[1,65535]`, yet the header check accepts it (no `INVALID_BARE_HEADER`). -/
theorem C6_counterexample :
    hGet portZeroHeaders (S "x-bare-port") = some (S "0") ∧
    readRemote portZeroHeaders
      = .ok ⟨S "example.com", S "0", S "http:", S "/"⟩ ∧
    jsParseInt (S "0") = some 0 ∧
    ¬(1 ≤ (0 : Int) ∧ (0 : Int) ≤ 65535) :=
  ⟨rfl, rfl, rfl, by decide⟩

/-! ### C2: forbidden send headers -/

theorem bind_ok_inv {ε α β : Type} {x : Except ε α} {f : α → Except ε β} {b : β}
    (h : (x >>= f) = .ok b) : ∃ a, x = .ok a ∧ f a = .ok b := by
  cases x with
  | error e => exact absurd h (by simp [Bind.bind, Except.bind])
  | ok a => exact ⟨a, rfl, by simpa [Bind.bind, Except.bind] using h⟩

theorem objSet_key_pred (P : JsStr → Prop) (o : ObjMap) (k : JsStr) (v : HVal)
    (ho : ∀ p ∈ o, P p.1) (hk : P k) :
    ∀ p ∈ objSet o k v, P p.1 := by
  unfold objSet
  by_cases hhas : o.any (fun p => p.1 = k) = true
  · rw [if_pos hhas]
    intro p hp
    rcases List.mem_map.1 hp with ⟨q, hq, hqp⟩
    by_cases hqk : q.1 = k
    · rw [if_pos (by simpa using hqk)] at hqp
      rw [← hqp]
      exact hk
    · rw [if_neg (by simpa using hqk)] at hqp
      rw [← hqp]
      exact ho q hq
  · rw [if_neg hhas]
    intro p hp
    rcases List.mem_append.1 hp with hpo | hpn
    · exact ho p hpo
    · simp only [List.mem_singleton] at hpn
      rw [hpn]
      exact hk

theorem loadSendHeaders_cons (acc : ObjMap) (header : JsStr) (value : JsVal)
    (rest : List (JsStr × JsVal)) :
    loadSendHeaders acc ((header, value) :: rest) =
      if forbiddenSendHeaders.contains (jsToLower header) then
        loadSendHeaders acc rest
      else
        match value with
        | .str s => loadSendHeaders (objSet acc header (HVal.one s)) rest
        | .arr elems => do
          let strs ← strArray header elems
          loadSendHeaders (objSet acc header (HVal.many strs)) rest
        | .other => .error (.bare (notStringError header)) := rfl

theorem forwardNamesV1_cons_str (s : JsStr) (rest : List JsVal) :
    forwardNamesV1 (.str s :: rest) =
      (if forbiddenForwardHeadersV1.contains (jsToLower s) then forwardNamesV1 rest
       else (forwardNamesV1 rest).map (jsToLower s :: ·)) := rfl

theorem loadForwardedHeaders_cons (n : JsStr) (rest : List JsStr)
    (target : ObjMap) (rh : HeadersM) :
    loadForwardedHeaders (n :: rest) target rh =
      loadForwardedHeaders rest
        (match hGet rh n with
          | some v => objSet target n (HVal.one v)
          | none => target) rh := rfl

theorem loadSendHeaders_pred :
    ∀ (parsed : List (JsStr × JsVal)) (acc out : ObjMap),
      (∀ p ∈ acc, forbiddenSendHeaders.contains (jsToLower p.1) = false) →
      loadSendHeaders acc parsed = .ok out →
      ∀ p ∈ out, forbiddenSendHeaders.contains (jsToLower p.1) = false := by
  intro parsed
  induction parsed with
  | nil =>
    intro acc out hacc hok
    rw [loadSendHeaders] at hok
    cases hok
    exact hacc
  | cons q rest ih =>
    intro acc out hacc hok
    rcases q with ⟨header, value⟩
    rw [loadSendHeaders_cons] at hok
    by_cases hforb : forbiddenSendHeaders.contains (jsToLower header) = true
    · rw [if_pos hforb] at hok
      exact ih acc out hacc hok
    · rw [if_neg hforb] at hok
      have hfree : forbiddenSendHeaders.contains (jsToLower header) = false := by
        rcases hc : forbiddenSendHeaders.contains (jsToLower header) with _ | _
        · rfl
        · exact absurd hc hforb
      cases value with
      | str s =>
        exact ih _ out (objSet_key_pred
          (fun k => forbiddenSendHeaders.contains (jsToLower k) = false)
          acc header (HVal.one s) hacc hfree) hok
      | arr elems =>
        obtain ⟨strs, hstrs, hrest⟩ := bind_ok_inv hok
        exact ih _ out (objSet_key_pred
          (fun k => forbiddenSendHeaders.contains (jsToLower k) = false)
          acc header (HVal.many strs) hacc hfree) hrest
      | other =>
        exact absurd hok (by simp)

theorem readForwardHeaders_pred :
    ∀ (tokens : List JsStr) (acc out : List JsStr),
      (∀ n ∈ acc, forbiddenForwardHeaders.contains n = false ∧ jsToLower n = n) →
      readForwardHeaders acc tokens = .ok out →
      ∀ n ∈ out, forbiddenForwardHeaders.contains n = false ∧ jsToLower n = n := by
  intro tokens
  induction tokens with
  | nil =>
    intro acc out hacc hok
    rw [readForwardHeaders] at hok
    cases hok
    exact hacc
  | cons t rest ih =>
    intro acc out hacc hok
    rw [readForwardHeaders] at hok
    by_cases hforb : forbiddenForwardHeaders.contains (jsToLower t) = true
    · rw [if_pos hforb] at hok
      exact absurd hok (by simp)
    · rw [if_neg hforb] at hok
      refine ih _ out ?_ hok
      intro n hn
      rcases List.mem_append.1 hn with hno | hnn
      · exact hacc n hno
      · simp only [List.mem_singleton] at hnn
        subst hnn
        refine ⟨?_, jsToLower_idem t⟩
        rcases hc : forbiddenForwardHeaders.contains (jsToLower t) with _ | _
        · rfl
        · exact absurd hc hforb

theorem forwardNamesV1_pred :
    ∀ (vals : List JsVal) (names : List JsStr),
      forwardNamesV1 vals = .ok names →
      ∀ n ∈ names, forbiddenForwardHeadersV1.contains n = false ∧ jsToLower n = n := by
  intro vals
  induction vals with
  | nil =>
    intro names hok
    rw [forwardNamesV1] at hok
    cases hok
    intro n hn
    exact absurd hn (List.not_mem_nil n)
  | cons v rest ih =>
    intro names hok
    cases v with
    | str s =>
      rw [forwardNamesV1_cons_str] at hok
      by_cases hforb : forbiddenForwardHeadersV1.contains (jsToLower s) = true
      · rw [if_pos hforb] at hok
        exact ih names hok
      · rw [if_neg hforb] at hok
        rcases hrest : forwardNamesV1 rest with _ | tailNames
        · rw [hrest] at hok
          exact absurd hok (by simp [Except.map])
        · rw [hrest] at hok
          have hnames : names = jsToLower s :: tailNames := by
            simpa [Except.map] using hok.symm
          subst hnames
          intro n hn
          rcases List.mem_cons.1 hn with hEq | hmem
          · subst hEq
            refine ⟨?_, jsToLower_idem s⟩
            rcases hc : forbiddenForwardHeadersV1.contains (jsToLower s) with _ | _
            · rfl
            · exact absurd hc hforb
          · exact ih tailNames hrest n hmem
    | arr elems =>
      exact absurd hok (by simp [forwardNamesV1])
    | other =>
      exact absurd hok (by simp [forwardNamesV1])

theorem loadForwardedHeaders_pred (P : JsStr → Prop) :
    ∀ (fwd : List JsStr) (target : ObjMap) (rh : HeadersM),
      (∀ p ∈ target, P p.1) → (∀ n ∈ fwd, P n) →
      ∀ p ∈ loadForwardedHeaders fwd target rh, P p.1 := by
  intro fwd
  induction fwd with
  | nil =>
    intro target rh htgt _
    exact htgt
  | cons n rest ih =>
    intro target rh htgt hfwd
    rw [loadForwardedHeaders_cons]
    rcases hg : hGet rh n with _ | v
    · exact ih target rh htgt (fun m hm => hfwd m (List.mem_cons_of_mem n hm))
    · exact ih _ rh
        (objSet_key_pred P target n (HVal.one v) htgt (hfwd n (List.mem_cons_self n rest)))
        (fun m hm => hfwd m (List.mem_cons_of_mem n hm))

theorem map_ok_inv {ε α β : Type} {x : Except ε α} {f : α → β} {b : β}
    (h : x.map f = .ok b) : ∃ a, x = .ok a ∧ f a = b := by
  cases x with
  | error e => exact absurd h (by simp [Except.map])
  | ok a =>
    refine ⟨a, rfl, ?_⟩
    simpa [Except.map] using h

theorem sendFree_key (k : JsStr)
    (h : forbiddenSendHeaders.contains (jsToLower k) = false) :
    ¬jsToLower k = S "connection" ∧ ¬jsToLower k = S "transfer-encoding" := by
  constructor <;> (intro hEq; rw [hEq] at h; exact absurd h (by decide))

theorem fwdV1_key (n : JsStr)
    (h1 : forbiddenForwardHeadersV1.contains n = false) (h2 : jsToLower n = n) :
    ¬jsToLower n = S "connection" ∧ ¬jsToLower n = S "transfer-encoding" := by
  rw [h2]
  constructor <;> (intro hEq; rw [hEq] at h1; exact absurd h1 (by decide))

theorem fwdV2_key (n : JsStr)
    (h1 : forbiddenForwardHeaders.contains n = false) (h2 : jsToLower n = n) :
    ¬jsToLower n = S "connection" ∧ ¬jsToLower n = S "transfer-encoding" := by
  rw [h2]
  constructor <;> (intro hEq; rw [hEq] at h1; exact absurd h1 (by decide))

theorem defaultForwardV2_pred (c : Bool) :
    ∀ n ∈ defaultForwardHeadersV2 ++ (if c then defaultCacheForwardHeaders else []),
      forbiddenForwardHeaders.contains n = false ∧ jsToLower n = n := by
  cases c <;> decide

theorem defaultForwardV3_pred (c : Bool) :
    ∀ n ∈ defaultForwardHeadersV3 ++ (if c then defaultCacheForwardHeaders else []),
      forbiddenForwardHeaders.contains n = false ∧ jsToLower n = n := by
  cases c <;> decide

theorem sendInvariantV1 (req : BareRequestM) (pH : JsonObjParser)
    (pF : JsonArrParser) (pU : URLParser) (d : V1HeaderData)
    (hok : readHeadersV1 req pH pF pU = .ok d) :
    ∀ p ∈ d.headers,
      ¬jsToLower p.1 = S "connection" ∧ ¬jsToLower p.1 = S "transfer-encoding" := by
  unfold readHeadersV1 at hok
  rcases h1 : readRemote req.headers with e | remote <;> rw [h1] at hok <;>
    simp only [] at hok
  · simp at hok
  rcases h2 : hGet req.headers (S "x-bare-headers") with _ | xbh <;> rw [h2] at hok <;>
    simp only [] at hok
  · simp at hok
  rcases h3 : pH xbh with e3 | parsed <;> rw [h3] at hok <;>
    simp only [] at hok
  · simp at hok
  rcases h4 : loadSendHeaders [] parsed with e4 | headers0 <;> rw [h4] at hok <;>
    simp only [] at hok
  · simp at hok
  rcases h5 : hGet req.headers (S "x-bare-forward-headers") with _ | xfwd <;>
    rw [h5] at hok <;> simp only [] at hok
  · simp at hok
  rcases h6 : pF xfwd with e6 | vals <;> rw [h6] at hok <;>
    simp only [] at hok
  · simp at hok
  rcases h7 : forwardNamesV1 vals with e7 | names <;> rw [h7] at hok <;>
    simp only [] at hok
  · simp at hok
  rcases h8 : pU (remoteToURLString remote) with e8 | u <;> rw [h8] at hok <;>
    simp only [] at hok
  · simp at hok
  cases hok
  have hsendPred := loadSendHeaders_pred parsed [] headers0
    (fun p hp => absurd hp (List.not_mem_nil p)) h4
  have hnamesPred := forwardNamesV1_pred vals names h7
  exact loadForwardedHeaders_pred
    (fun k => ¬jsToLower k = S "connection" ∧ ¬jsToLower k = S "transfer-encoding")
    names headers0 req.headers
    (fun p hp => sendFree_key p.1 (hsendPred p hp))
    (fun n hn => fwdV1_key n (hnamesPred n hn).1 (hnamesPred n hn).2)

theorem commonTail_inv (headers : HeadersM) (pH : JsonObjParser)
    (sCW : CommaSplit) (ph0 : List JsStr) (ps0 : List Int) (fh0 : List JsStr)
    (sendH : ObjMap) (passH : List JsStr) (passS : List Int) (fwdH : List JsStr)
    (hok : readHeadersCommonTail headers pH sCW ph0 ps0 fh0
      = .ok (sendH, passH, passS, fwdH)) :
    (∃ parsed, loadSendHeaders [] parsed = .ok sendH) ∧
    (fwdH = fh0 ∨ ∃ tokens, readForwardHeaders fh0 tokens = .ok fwdH) := by
  unfold readHeadersCommonTail at hok
  rcases h1 : hGet headers (S "x-bare-headers") with _ | xbh <;> rw [h1] at hok <;>
    simp only [] at hok
  · simp at hok
  rcases h2 : pH xbh with e2 | parsed <;> rw [h2] at hok <;>
    simp only [] at hok
  · simp at hok
  rcases h3 : loadSendHeaders [] parsed with e3 | sendH0 <;> rw [h3] at hok <;>
    simp only [] at hok
  · simp at hok
  rcases h4 : readPassStatusOpt ps0 sCW (hGet headers (S "x-bare-pass-status"))
      with e4 | passS0 <;> rw [h4] at hok <;> simp only [] at hok
  · simp at hok
  rcases h5 : readPassHeadersOpt ph0 sCW (hGet headers (S "x-bare-pass-headers"))
      with e5 | passH0 <;> rw [h5] at hok <;> simp only [] at hok
  · simp at hok
  rcases h6 : readForwardHeadersOpt fh0 sCW (hGet headers (S "x-bare-forward-headers"))
      with e6 | fwdH0 <;> rw [h6] at hok <;> simp only [] at hok
  · simp at hok
  have h := hok
  simp only [Except.ok.injEq, Prod.mk.injEq] at h
  obtain ⟨rfl, rfl, rfl, rfl⟩ := h
  refine ⟨⟨parsed, h3⟩, ?_⟩
  rcases hg : hGet headers (S "x-bare-forward-headers") with _ | v <;> rw [hg] at h6
  · left
    rw [readForwardHeadersOpt] at h6
    simpa using h6.symm
  · right
    rw [readForwardHeadersOpt] at h6
    exact ⟨sCW v, h6⟩

theorem fwdPredV2 (c : Bool) (fwdH : List JsStr)
    (h : fwdH = defaultForwardHeadersV2 ++ (if c then defaultCacheForwardHeaders else [])
      ∨ ∃ tokens, readForwardHeaders
          (defaultForwardHeadersV2 ++ (if c then defaultCacheForwardHeaders else []))
          tokens = .ok fwdH) :
    ∀ n ∈ fwdH, forbiddenForwardHeaders.contains n = false ∧ jsToLower n = n := by
  rcases h with heq | ⟨tokens, htk⟩
  · intro n hn
    exact defaultForwardV2_pred c n (heq ▸ hn)
  · exact readForwardHeaders_pred tokens _ fwdH (defaultForwardV2_pred c) htk

theorem fwdPredV3 (c : Bool) (fwdH : List JsStr)
    (h : fwdH = defaultForwardHeadersV3 ++ (if c then defaultCacheForwardHeaders else [])
      ∨ ∃ tokens, readForwardHeaders
          (defaultForwardHeadersV3 ++ (if c then defaultCacheForwardHeaders else []))
          tokens = .ok fwdH) :
    ∀ n ∈ fwdH, forbiddenForwardHeaders.contains n = false ∧ jsToLower n = n := by
  rcases h with heq | ⟨tokens, htk⟩
  · intro n hn
    exact defaultForwardV3_pred c n (heq ▸ hn)
  · exact readForwardHeaders_pred tokens _ fwdH (defaultForwardV3_pred c) htk

theorem sendInvariantV2 (req : BareRequestM) (pH : JsonObjParser)
    (sCW : CommaSplit) (pU : URLParser) (out : ObjMap)
    (hok : tunnelSendHeadersV2 req pH sCW pU = .ok out) :
    ∀ p ∈ out,
      ¬jsToLower p.1 = S "connection" ∧ ¬jsToLower p.1 = S "transfer-encoding" := by
  unfold tunnelSendHeadersV2 at hok
  obtain ⟨d, hd, hout⟩ := map_ok_inv hok
  unfold readHeadersV2 at hd
  rcases hj : joinHeaders req.headers with e | headers <;> rw [hj] at hd <;>
    simp only [] at hd
  · simp at hd
  rcases hr : readRemote headers with e | remote <;> rw [hr] at hd <;>
    simp only [] at hd
  · simp at hd
  rcases hct : readHeadersCommonTail headers pH sCW
      (defaultPassHeaders ++ (if req.cache then defaultCachePassHeaders else []))
      (if req.cache then [(cacheNotModified : Int)] else [])
      (defaultForwardHeadersV2 ++
        (if req.cache then defaultCacheForwardHeaders else []))
    with e | q <;> rw [hct] at hd <;> simp only [] at hd
  · simp at hd
  obtain ⟨sendH, passH, passS, fwdH⟩ := q
  simp only [] at hd
  rcases hu : pU (remoteToURLString remote) with e | u <;> rw [hu] at hd <;>
    simp only [] at hd
  · simp at hd
  cases hd
  obtain ⟨⟨parsed, hsend⟩, hfwd⟩ :=
    commonTail_inv headers pH sCW _ _ _ sendH passH passS fwdH hct
  have hsendPred := loadSendHeaders_pred parsed [] sendH
    (fun p hp => absurd hp (List.not_mem_nil p)) hsend
  have hfwdPred := fwdPredV2 req.cache fwdH hfwd
  rw [← hout]
  exact loadForwardedHeaders_pred
    (fun k => ¬jsToLower k = S "connection" ∧ ¬jsToLower k = S "transfer-encoding")
    fwdH sendH req.headers
    (fun p hp => sendFree_key p.1 (hsendPred p hp))
    (fun n hn => fwdV2_key n (hfwdPred n hn).1 (hfwdPred n hn).2)

theorem sendInvariantV3 (req : BareRequestM) (pH : JsonObjParser)
    (sCW : CommaSplit) (pU : URLParser) (out : ObjMap)
    (hok : tunnelSendHeadersV3 req pH sCW pU = .ok out) :
    ∀ p ∈ out,
      ¬jsToLower p.1 = S "connection" ∧ ¬jsToLower p.1 = S "transfer-encoding" := by
  unfold tunnelSendHeadersV3 at hok
  obtain ⟨d, hd, hout⟩ := map_ok_inv hok
  unfold readHeadersV3 at hd
  rcases hj : joinHeaders req.headers with e | headers <;> rw [hj] at hd <;>
    simp only [] at hd
  · simp at hd
  rcases hu0 : hGet headers (S "x-bare-url") with _ | xurl <;> rw [hu0] at hd <;>
    simp only [] at hd
  · simp at hd
  rcases hp0 : pU xurl with e | parsedURL <;> rw [hp0] at hd <;> simp only [] at hd
  · simp at hd
  rcases hct : readHeadersCommonTail headers pH sCW
      (defaultPassHeaders ++ (if req.cache then defaultCachePassHeaders else []))
      (if req.cache then [(cacheNotModified : Int)] else [])
      (defaultForwardHeadersV3 ++
        (if req.cache then defaultCacheForwardHeaders else []))
    with e | q <;> rw [hct] at hd <;> simp only [] at hd
  · simp at hd
  obtain ⟨sendH, passH, passS, fwdH⟩ := q
  simp only [] at hd
  rcases hu : pU (remoteToURLString (urlToRemote parsedURL)) with e | u <;>
    rw [hu] at hd <;> simp only [] at hd
  · simp at hd
  cases hd
  obtain ⟨⟨parsed, hsend⟩, hfwd⟩ :=
    commonTail_inv headers pH sCW _ _ _ sendH passH passS fwdH hct
  have hsendPred := loadSendHeaders_pred parsed [] sendH
    (fun p hp => absurd hp (List.not_mem_nil p)) hsend
  have hfwdPred := fwdPredV3 req.cache fwdH hfwd
  rw [← hout]
  exact loadForwardedHeaders_pred
    (fun k => ¬jsToLower k = S "connection" ∧ ¬jsToLower k = S "transfer-encoding")
    fwdH sendH req.headers
    (fun p hp => sendFree_key p.1 (hsendPred p hp))
    (fun n hn => fwdV2_key n (hfwdPred n hn).1 (hfwdPred n hn).2)

/-- C2: corrected.  In every version the `forbiddenSendHeaders` check does
list `content-length`, but it only guards the `x-bare-headers` loop; no
`forbiddenForwardHeaders` list contains `content-length`, so a client can
reintroduce it via `x-bare-forward-headers` (see `C2_counterexample`).
What does hold, in all of v1, v2 and v3 and for every parser/split/URL
oracle, is that `connection` and `transfer-encoding` (case-insensitively)
never appear in the sendHeaders passed to the fetch. -/
theorem C2_forbidden_send_headers (req : BareRequestM) (pH : JsonObjParser)
    (pF : JsonArrParser) (sCW : CommaSplit) (pU : URLParser) :
    (∀ d, readHeadersV1 req pH pF pU = .ok d →
      ∀ p ∈ d.headers,
        ¬jsToLower p.1 = S "connection" ∧ ¬jsToLower p.1 = S "transfer-encoding") ∧
    (∀ out, tunnelSendHeadersV2 req pH sCW pU = .ok out →
      ∀ p ∈ out,
        ¬jsToLower p.1 = S "connection" ∧ ¬jsToLower p.1 = S "transfer-encoding") ∧
    (∀ out, tunnelSendHeadersV3 req pH sCW pU = .ok out →
      ∀ p ∈ out,
        ¬jsToLower p.1 = S "connection" ∧ ¬jsToLower p.1 = S "transfer-encoding") :=
  ⟨fun d hok => sendInvariantV1 req pH pF pU d hok,
   fun out hok => sendInvariantV2 req pH sCW pU out hok,
   fun out hok => sendInvariantV3 req pH sCW pU out hok⟩

/-- The v1 invariant applied at the concrete request `c2ReqW`: the
resulting send map is exactly the `accept` header, and it is neither
`connection` nor `transfer-encoding`. -/
theorem C2_forbidden_send_headers_witness :
    readHeadersV1 c2ReqW c2ParseHdrsW c2ParseFwdW c2ParseURLW
      = .ok ⟨⟨S "http:", S "example.com", S "", S "/", S ""⟩,
             [(S "accept", HVal.one (S "text/html"))]⟩ ∧
    (S "accept", HVal.one (S "text/html"))
        ∈ [(S "accept", HVal.one (S "text/html"))] ∧
    ¬jsToLower (S "accept") = S "connection" ∧
    ¬jsToLower (S "accept") = S "transfer-encoding" := by
  refine ⟨rfl, List.mem_singleton.2 rfl, ?_⟩
  exact (C2_forbidden_send_headers c2ReqW c2ParseHdrsW c2ParseFwdW
      c2SplitCWCx c2ParseURLW).1
    ⟨⟨S "http:", S "example.com", S "", S "/", S ""⟩,
     [(S "accept", HVal.one (S "text/html"))]⟩
    rfl (S "accept", HVal.one (S "text/html")) (List.mem_singleton.2 rfl)

/-- The spec sentence fails for `content-length`: the v3 request `c2ReqCx`
lists it in `x-bare-forward-headers`, and the sendHeaders passed to the
fetch then contain `content-length: 5`, even though `content-length` is in
`forbiddenSendHeaders`. -/
theorem C2_counterexample :
    tunnelSendHeadersV3 c2ReqCx c2ParseHdrsCx c2SplitCWCx c2ParseURLW
      = .ok [(S "content-length", HVal.one (S "5"))] ∧
    forbiddenSendHeaders.contains (jsToLower (S "content-length")) = true := by
  exact ⟨rfl, by decide⟩

/-- C1: code_bug.  The catch block of `routeRequest` has no `BareError`
branch: `createHttpError.isHttpError` is false for a `BareError` (it has
`status`/`body`, not `statusCode`/`expose`), so a thrown `BareError` falls
into the generic `error instanceof Error` arm and becomes a 500 response
with code `UNKNOWN` and id `error.Error` — its `status` and `body` fields
are never read.  Only http-errors keep their status, and even they get
code `UNKNOWN`, so the spec's funnel (`BareError` → its status & body) is
not implemented on any input.  Concretely (last conjunct): a v1 request
without `x-bare-host` throws a 400 `MISSING_BARE_HEADER` `BareError`, and
the client receives 500 `UNKNOWN` instead. -/
theorem C1_bare_error_funnel :
    (∀ e : BareError, routeRequestCatch (.bare e)
        = (500, ⟨S "UNKNOWN", S "error.Error",
                 some ((e.body.message).getD e.body.code), none⟩)) ∧
    (∀ sc n m, routeRequestCatch (.httpErr sc n m)
        = (sc, ⟨S "UNKNOWN", S "error." ++ n, some m, none⟩)) ∧
    (∀ n m, routeRequestCatch (.err n m)
        = (500, ⟨S "UNKNOWN", S "error." ++ n, some m, none⟩)) ∧
    readHeadersV1 c1ReqNoHost c2ParseHdrsW c2ParseFwdW c2ParseURLW
        = .error (.bare (missingHeaderError (S "x-bare-host"))) ∧
    (missingHeaderError (S "x-bare-host")).status = 400 ∧
    routeRequestCatch (.bare (missingHeaderError (S "x-bare-host")))
        = (500, ⟨S "UNKNOWN", S "error.Error",
                 some (S "Header was not specified."), none⟩) :=
  ⟨fun _ => rfl, fun _ _ _ => rfl, fun _ _ => rfl, rfl, rfl, rfl⟩

/-- C7: confirmed.  With `blockLocal` unset or true and no caller-supplied
`filterRemote`, the resolved filter rejects every literal IP hostname
whose range is not `unicast` by throwing `RangeError('Forbidden IP')`
before `bareFetch` issues the request, and `routeRequest` turns that
throw into a 500 response with code `UNKNOWN`; a valid-IP hostname in the
`unicast` range passes; with `blockLocal = false` no filter is installed
and the filter stage is a no-op. -/
theorem C7_block_local_filter (ipValid : JsStr → Bool) (ipRange : JsStr → JsStr)
    (remote : URLRec) :
    (∀ bl : Option Bool, bl.getD true = true →
      ipValid remote.hostname = true →
      ¬ipRange remote.hostname = S "unicast" →
      bareFetchFilter (resolveFilterRemote ipValid ipRange bl none) remote
        = .error (.err (S "RangeError") (S "Forbidden IP"))) ∧
    (∀ bl : Option Bool, bl.getD true = true →
      ipRange remote.hostname = S "unicast" →
      bareFetchFilter (resolveFilterRemote ipValid ipRange bl none) remote
        = .ok ()) ∧
    (resolveFilterRemote ipValid ipRange (some false) none = none ∧
      bareFetchFilter (resolveFilterRemote ipValid ipRange (some false) none)
        remote = .ok ()) ∧
    routeRequestCatch (.err (S "RangeError") (S "Forbidden IP"))
      = (500, ⟨S "UNKNOWN", S "error.RangeError", some (S "Forbidden IP"), none⟩) := by
  refine ⟨?_, ?_, ⟨?_, ?_⟩, rfl⟩
  · intro bl hbl hvalid hrange
    have hne : (ipRange remote.hostname == S "unicast") = false :=
      beq_eq_false_iff_ne.2 hrange
    simp [resolveFilterRemote, hbl, bareFetchFilter, defaultFilterRemote,
      hvalid, hne]
  · intro bl hbl hrange
    simp [resolveFilterRemote, hbl, bareFetchFilter, defaultFilterRemote, hrange]
  · simp [resolveFilterRemote]
  · simp [resolveFilterRemote, bareFetchFilter]

/-- The filter at the concrete loopback and unicast addresses: `127.0.0.1`
is rejected with `Forbidden IP` under the defaults, `93.184.216.34`
passes. -/
theorem C7_block_local_filter_witness :
    (Option.getD (none : Option Bool) true = true) ∧
    ipValidW (S "127.0.0.1") = true ∧
    ¬ipRangeW (S "127.0.0.1") = S "unicast" ∧
    bareFetchFilter (resolveFilterRemote ipValidW ipRangeW none none)
      remoteLoopback = .error (.err (S "RangeError") (S "Forbidden IP")) ∧
    ipRangeW (S "93.184.216.34") = S "unicast" ∧
    bareFetchFilter (resolveFilterRemote ipValidW ipRangeW none none)
      remoteUnicast = .ok () := by
  refine ⟨rfl, by decide, by decide, ?_, by decide, ?_⟩
  · exact (C7_block_local_filter ipValidW ipRangeW remoteLoopback).1 none rfl
      (by decide) (by decide)
  · exact (C7_block_local_filter ipValidW ipRangeW remoteUnicast).2.1 none rfl
      (by decide)

theorem find_map_upd (id : JsStr) (m : CommonMeta) :
    ∀ db : DB, db.any (fun p => p.1 == id) = true →
      (List.find? (fun p => p.1 == id)
        (db.map (fun p => if p.1 == id then (p.1, m) else p))).map
          (fun p => p.2) = some m := by
  intro db
  induction db with
  | nil => intro h; simp at h
  | cons q rest ih =>
    intro h
    rw [List.map_cons]
    rcases hq : q.1 == id with _ | _
    · have hr : rest.any (fun p => p.1 == id) = true := by
        rw [List.any_cons, hq] at h
        simpa using h
      rw [if_neg (by simp), List.find?_cons_of_neg
        (p := fun r : JsStr × CommonMeta => r.1 == id) _ (by simp [hq])]
      exact ih hr
    · rw [if_pos rfl, List.find?_cons_of_pos
        (p := fun r : JsStr × CommonMeta => r.1 == id) (a := (q.1, m)) _ hq]
      rfl

theorem dbGet_dbSet (db : DB) (id : JsStr) (m : CommonMeta) :
    dbGet (dbSet db id m) id = some m := by
  unfold dbGet dbSet
  by_cases h : db.any (fun p => p.1 == id) = true
  · rw [if_pos h]
    exact find_map_upd id m db h
  · rw [if_neg h]
    induction db with
    | nil =>
      rw [List.nil_append, List.find?_cons_of_pos
        (p := fun r : JsStr × CommonMeta => r.1 == id) _ (by simp)]
      rfl
    | cons q rest ih =>
      have hq : (q.1 == id) = false := by
        rcases hc : q.1 == id with _ | _
        · rfl
        · exact absurd (by rw [List.any_cons, hc]; rfl) h
      have hr : ¬rest.any (fun p => p.1 == id) = true := by
        intro hc
        exact h (by rw [List.any_cons, hc, Bool.or_true])
      rw [List.cons_append, List.find?_cons_of_neg
        (p := fun r : JsStr × CommonMeta => r.1 == id) _ (by simp [hq])]
      exact ih hr

/-- C8: corrected.  The v1 endpoint behaves exactly as claimed: a matching
`v = 1` record is returned (its recorded response headers, possibly still
unset) and deleted, while a missing record or a `v = 2` record yields 400
`INVALID_BARE_HEADER` ('Unregistered ID').  The v2 endpoint additionally
requires the relay to have recorded a response: a `v = 2` record whose
`response` field is still unset is rejected with 400 `INVALID_BARE_HEADER`
('Meta not ready') — not 'Unregistered ID' — and, because the throw
precedes the `database.delete(id)` call, the record is not deleted
(see `C8_ws_meta_counterexample`). -/
theorem C8_ws_meta (hdrs : HeadersM) (db : DB) (id : JsStr)
    (hid : hGet hdrs (S "x-bare-id") = some id) :
    (∀ meta response, dbGet db id = some meta → meta.value = .v1 response →
      wsMetaV1 hdrs db = (dbDelete db id, .ok response)) ∧
    (dbGet db id = none →
      wsMetaV1 hdrs db = (db, .error (.bare unregisteredIdError))) ∧
    (∀ meta r sh fh resp, dbGet db id = some meta →
      meta.value = .v2 r sh fh resp →
      wsMetaV1 hdrs db = (db, .error (.bare unregisteredIdError))) ∧
    (∀ meta r sh fh resp, dbGet db id = some meta →
      meta.value = .v2 r sh fh (some resp) →
      getMetaV2 hdrs db = (dbDelete db id, .ok resp)) ∧
    (dbGet db id = none →
      getMetaV2 hdrs db = (db, .error (.bare unregisteredIdError))) ∧
    (∀ meta response, dbGet db id = some meta → meta.value = .v1 response →
      getMetaV2 hdrs db = (db, .error (.bare unregisteredIdError))) ∧
    (∀ meta r sh fh, dbGet db id = some meta → meta.value = .v2 r sh fh none →
      getMetaV2 hdrs db = (db, .error (.bare metaNotReadyError))) := by
  refine ⟨?_, ?_, ?_, ?_, ?_, ?_, ?_⟩
  · intro meta response hget hval
    unfold wsMetaV1
    rw [hid]; simp only []; rw [hget]; simp only []; rw [hval]
  · intro hget
    unfold wsMetaV1
    rw [hid]; simp only []; rw [hget]
  · intro meta r sh fh resp hget hval
    unfold wsMetaV1
    rw [hid]; simp only []; rw [hget]; simp only []; rw [hval]
  · intro meta r sh fh resp hget hval
    unfold getMetaV2
    rw [hid]; simp only []; rw [hget]; simp only []; rw [hval]
  · intro hget
    unfold getMetaV2
    rw [hid]; simp only []; rw [hget]
  · intro meta response hget hval
    unfold getMetaV2
    rw [hid]; simp only []; rw [hget]; simp only []; rw [hval]
  · intro meta r sh fh hget hval
    unfold getMetaV2
    rw [hid]; simp only []; rw [hget]; simp only []; rw [hval]

/-- The v1 and v2 endpoints at concrete completed records: the response is
returned and the record deleted; a missing id is 'Unregistered ID'. -/
theorem C8_ws_meta_witness :
    hGet metaReqW (S "x-bare-id") = some (S "abc") ∧
    dbGet dbV1W (S "abc")
      = some ⟨100, .v1 (some [(S "set-cookie", HVal.one (S "a=1"))])⟩ ∧
    wsMetaV1 metaReqW dbV1W
      = ([], .ok (some [(S "set-cookie", HVal.one (S "a=1"))])) ∧
    getMetaV2 metaReqW dbV2W
      = ([], .ok ⟨101, S "Switching Protocols", []⟩) ∧
    wsMetaV1 metaReqW [] = ([], .error (.bare unregisteredIdError)) := by
  refine ⟨rfl, rfl, ?_, ?_, ?_⟩
  · exact (C8_ws_meta metaReqW dbV1W (S "abc") rfl).1
      ⟨100, .v1 (some [(S "set-cookie", HVal.one (S "a=1"))])⟩
      (some [(S "set-cookie", HVal.one (S "a=1"))]) rfl rfl
  · exact (C8_ws_meta metaReqW dbV2W (S "abc") rfl).2.2.2.1
      ⟨100, .v2 (S "ws://example.com/") [] []
        (some ⟨101, S "Switching Protocols", []⟩)⟩
      (S "ws://example.com/") [] [] ⟨101, S "Switching Protocols", []⟩ rfl rfl
  · exact (C8_ws_meta metaReqW [] (S "abc") rfl).2.1 rfl

/-- The claim fails on a pending v2 record: `v` matches the endpoint
version, yet no headers are returned — the request fails with
'Meta not ready', an error the claim does not admit, and the record stays
in the store rather than being deleted. -/
theorem C8_ws_meta_counterexample :
    getMetaV2 metaReqW dbV2Pending
      = (dbV2Pending, .error (.bare metaNotReadyError)) ∧
    metaNotReadyError.body.message = some (S "Meta not ready") ∧
    dbGet (getMetaV2 metaReqW dbV2Pending).1 (S "abc")
      = some ⟨100, .v2 (S "ws://example.com/")
          [(S "upgrade", HVal.one (S "websocket"))] [] none⟩ := by
  exact ⟨rfl, rfl, rfl⟩

/-- C10: confirmed.  A stored v2 record whose `response` has not yet been
written makes `getMeta` fail with `BareError(400, INVALID_BARE_HEADER,
'Meta not ready')`; the throw happens before `database.delete(id)`, so the
store is unchanged and the same id still resolves to the same record.
Once `tunnelSocket` fills `meta.value.response` and stores the record
back, the same poll succeeds: it returns the recorded response and only
then deletes the record. -/
theorem C10_pending_meta_poll (hdrs : HeadersM) (db : DB) (id : JsStr)
    (meta : CommonMeta) (r : JsStr) (sh : ObjMap) (fh : List JsStr)
    (resp : MetaRespV2)
    (hid : hGet hdrs (S "x-bare-id") = some id)
    (hget : dbGet db id = some meta)
    (hval : meta.value = .v2 r sh fh none) :
    getMetaV2 hdrs db = (db, .error (.bare metaNotReadyError)) ∧
    metaNotReadyError.status = 400 ∧
    metaNotReadyError.body.code = S "INVALID_BARE_HEADER" ∧
    dbGet (getMetaV2 hdrs db).1 id = some meta ∧
    getMetaV2 hdrs (tunnelSocketRecordResponse db id resp)
      = (dbDelete (tunnelSocketRecordResponse db id resp) id, .ok resp) := by
  have hmain : getMetaV2 hdrs db = (db, .error (.bare metaNotReadyError)) := by
    unfold getMetaV2
    rw [hid]; simp only []; rw [hget]; simp only []; rw [hval]
  have hdb2 : tunnelSocketRecordResponse db id resp
      = dbSet db id ⟨meta.expires, .v2 r sh fh (some resp)⟩ := by
    unfold tunnelSocketRecordResponse
    rw [hget]; simp only []; rw [hval]
  refine ⟨hmain, rfl, rfl, ?_, ?_⟩
  · rw [hmain]
    exact hget
  · rw [hdb2]
    unfold getMetaV2
    rw [hid]; simp only []
    rw [dbGet_dbSet db id ⟨meta.expires, .v2 r sh fh (some resp)⟩]

/-- The pending-then-ready cycle at the concrete store `dbV2Pending`. -/
theorem C10_pending_meta_poll_witness :
    hGet metaReqW (S "x-bare-id") = some (S "abc") ∧
    dbGet dbV2Pending (S "abc") = some pendingMetaW ∧
    pendingMetaW.value = .v2 (S "ws://example.com/")
      [(S "upgrade", HVal.one (S "websocket"))] [] none ∧
    (getMetaV2 metaReqW dbV2Pending
        = (dbV2Pending, .error (.bare metaNotReadyError)) ∧
      metaNotReadyError.status = 400 ∧
      metaNotReadyError.body.code = S "INVALID_BARE_HEADER" ∧
      dbGet (getMetaV2 metaReqW dbV2Pending).1 (S "abc") = some pendingMetaW ∧
      getMetaV2 metaReqW
          (tunnelSocketRecordResponse dbV2Pending (S "abc") relayRespW)
        = (dbDelete (tunnelSocketRecordResponse dbV2Pending (S "abc") relayRespW)
            (S "abc"), .ok relayRespW)) :=
  ⟨rfl, rfl, rfl,
   C10_pending_meta_poll metaReqW dbV2Pending (S "abc") pendingMetaW
     (S "ws://example.com/") [(S "upgrade", HVal.one (S "websocket"))] []
     relayRespW rfl rfl rfl⟩

theorem hGet_hSet_self (h : HeadersM) (n v : JsStr) :
    hGet (hSet h n v) n = some v := by
  unfold hGet hSet
  simp only []
  by_cases hh : h.any (fun p => p.1 = jsToLower n) = true
  · rw [if_pos hh]
    induction h with
    | nil => simp at hh
    | cons q rest ih =>
      rw [List.map_cons]
      by_cases hq : q.1 = jsToLower n
      · rw [if_pos hq, List.find?_cons_of_pos
          (p := fun r : JsStr × JsStr => r.1 = jsToLower n)
          (a := (jsToLower n, v)) _ (by simp)]
        rfl
      · have hr : rest.any (fun p => p.1 = jsToLower n) = true := by
          rw [List.any_cons] at hh
          simpa [hq] using hh
        rw [if_neg hq, List.find?_cons_of_neg
          (p := fun r : JsStr × JsStr => r.1 = jsToLower n) _ (by simp [hq])]
        exact ih hr
  · rw [if_neg hh]
    induction h with
    | nil =>
      rw [List.nil_append, List.find?_cons_of_pos
        (p := fun r : JsStr × JsStr => r.1 = jsToLower n) _ (by simp)]
      rfl
    | cons q rest ih =>
      have hq : ¬q.1 = jsToLower n := by
        intro hc
        exact hh (by rw [List.any_cons]; simp [hc])
      have hr : ¬rest.any (fun p => p.1 = jsToLower n) = true := by
        intro hc
        exact hh (by rw [List.any_cons, hc, Bool.or_true])
      rw [List.cons_append, List.find?_cons_of_neg
        (p := fun r : JsStr × JsStr => r.1 = jsToLower n) _ (by simp [hq])]
      exact ih hr

theorem hGet_hSet_other (h : HeadersM) (n m v : JsStr)
    (hne : ¬jsToLower m = jsToLower n) :
    hGet (hSet h n v) m = hGet h m := by
  unfold hGet hSet
  simp only []
  by_cases hh : h.any (fun p => p.1 = jsToLower n) = true
  · rw [if_pos hh]
    clear hh
    induction h with
    | nil => rfl
    | cons q rest ih =>
      rw [List.map_cons]
      by_cases hq : q.1 = jsToLower n
      · have hqm : ¬q.1 = jsToLower m := by
          intro hc
          exact hne (by rw [← hc, hq])
        rw [if_pos hq, List.find?_cons_of_neg
          (p := fun r : JsStr × JsStr => r.1 = jsToLower m)
          (a := (jsToLower n, v)) _ (by simp; intro hc; exact hne hc.symm),
          List.find?_cons_of_neg
          (p := fun r : JsStr × JsStr => r.1 = jsToLower m) _ (by simp [hqm])]
        exact ih
      · rw [if_neg hq]
        by_cases hqm : q.1 = jsToLower m
        · rw [List.find?_cons_of_pos
            (p := fun r : JsStr × JsStr => r.1 = jsToLower m) _ (by simp [hqm]),
            List.find?_cons_of_pos
            (p := fun r : JsStr × JsStr => r.1 = jsToLower m) _ (by simp [hqm])]
        · rw [List.find?_cons_of_neg
            (p := fun r : JsStr × JsStr => r.1 = jsToLower m) _ (by simp [hqm]),
            List.find?_cons_of_neg
            (p := fun r : JsStr × JsStr => r.1 = jsToLower m) _ (by simp [hqm])]
          exact ih
  · rw [if_neg hh]
    induction h with
    | nil =>
      rw [List.nil_append, List.find?_cons_of_neg
        (p := fun r : JsStr × JsStr => r.1 = jsToLower m) _
        (by simp; intro hc; exact hne hc.symm)]
    | cons q rest ih =>
      have hr : ¬rest.any (fun p => p.1 = jsToLower n) = true := by
        intro hc
        exact hh (by rw [List.any_cons, hc, Bool.or_true])
      by_cases hqm : q.1 = jsToLower m
      · rw [List.cons_append, List.find?_cons_of_pos
          (p := fun r : JsStr × JsStr => r.1 = jsToLower m) _ (by simp [hqm]),
          List.find?_cons_of_pos
          (p := fun r : JsStr × JsStr => r.1 = jsToLower m) _ (by simp [hqm])]
      · rw [List.cons_append, List.find?_cons_of_neg
          (p := fun r : JsStr × JsStr => r.1 = jsToLower m) _ (by simp [hqm]),
          List.find?_cons_of_neg
          (p := fun r : JsStr × JsStr => r.1 = jsToLower m) _ (by simp [hqm])]
        exact ih hr

/-- C4: confirmed.  For every v2/v3 tunnel request and every
stringify oracle, pass list and upstream response: the envelope status is
the upstream status if listed in `passStatus` and 200 otherwise; unless
the envelope status is 304 the three `x-bare-*` meta headers carry the
upstream status, status text and the JSON of the remapped upstream
headers (and at 304 the meta block is skipped entirely); the envelope has
a body exactly when its status is outside {101, 204, 205, 304}; and
`splitHeaders` is applied to the final envelope headers. -/
theorem C4_envelope (strfy : JsonStringify) (passHeaders : List JsStr)
    (passStatus : List Int) (response : UpstreamResponse) :
    (tunnelResponse strfy passHeaders passStatus response).status
        = (if passStatus.contains (response.statusCode : Int)
           then response.statusCode else 200) ∧
    (tunnelResponse strfy passHeaders passStatus response).headers
        = splitHeaders
            (tunnelResponseHeadersPre strfy passHeaders passStatus response) ∧
    (¬tunnelEnvelopeStatus passStatus response = 304 →
      hGet (tunnelResponseHeadersPre strfy passHeaders passStatus response)
          (S "x-bare-status") = some (natDec response.statusCode) ∧
      hGet (tunnelResponseHeadersPre strfy passHeaders passStatus response)
          (S "x-bare-status-text") = some response.statusMessage ∧
      hGet (tunnelResponseHeadersPre strfy passHeaders passStatus response)
          (S "x-bare-headers")
        = some (strfy (mapHeadersFromArray (rawHeaderNames response.rawHeaders)
            response.headers))) ∧
    (tunnelEnvelopeStatus passStatus response = 304 →
      tunnelResponseHeadersPre strfy passHeaders passStatus response
        = passHeadersFold passHeaders response.headers) ∧
    ((tunnelResponse strfy passHeaders passStatus response).hasBody = false ↔
      (tunnelResponse strfy passHeaders passStatus response).status
        ∈ nullBodyStatus) := by
  refine ⟨rfl, rfl, ?_, ?_, ?_⟩
  · intro h304
    unfold tunnelResponseHeadersPre
    rw [if_pos (show ¬tunnelEnvelopeStatus passStatus response = cacheNotModified
      from h304)]
    refine ⟨?_, ?_, hGet_hSet_self _ _ _⟩
    · rw [hGet_hSet_other _ _ _ _ (by decide), hGet_hSet_other _ _ _ _ (by decide)]
      exact hGet_hSet_self _ _ _
    · rw [hGet_hSet_other _ _ _ _ (by decide)]
      exact hGet_hSet_self _ _ _
  · intro h304
    unfold tunnelResponseHeadersPre
    rw [if_neg (by simp [h304, cacheNotModified])]
  · constructor
    · intro hb
      refine List.mem_of_elem_eq_true ?_
      have h1 : (!(nullBodyStatus.elem (tunnelEnvelopeStatus passStatus response)))
          = false := hb
      simpa using h1
    · intro hm
      show (!(nullBodyStatus.elem (tunnelEnvelopeStatus passStatus response)))
          = false
      have hm2 : tunnelEnvelopeStatus passStatus response ∈ nullBodyStatus := hm
      rw [List.elem_eq_true_of_mem hm2]
      rfl

/-- The encoder at concrete inputs: a 200 response gets the meta headers,
a 304 (passed through via `passStatus`) skips them. -/
theorem C4_envelope_witness :
    ¬tunnelEnvelopeStatus ([] : List Int) respW4 = 304 ∧
    (hGet (tunnelResponseHeadersPre strfyW [S "content-encoding"] [] respW4)
        (S "x-bare-status") = some (natDec 200) ∧
      hGet (tunnelResponseHeadersPre strfyW [S "content-encoding"] [] respW4)
        (S "x-bare-status-text") = some (S "OK") ∧
      hGet (tunnelResponseHeadersPre strfyW [S "content-encoding"] [] respW4)
        (S "x-bare-headers") = some (S "sh")) ∧
    tunnelEnvelopeStatus [(304 : Int)] resp304 = 304 ∧
    tunnelResponseHeadersPre strfyW [S "content-encoding"] [(304 : Int)] resp304
      = passHeadersFold [S "content-encoding"] resp304.headers := by
  refine ⟨by decide, ?_, by decide, ?_⟩
  · exact (C4_envelope strfyW [S "content-encoding"] [] respW4).2.2.1 (by decide)
  · exact (C4_envelope strfyW [S "content-encoding"] [(304 : Int)] resp304).2.2.2.1
      (by decide)

end Bare
